import Mathlib

set_option maxHeartbeats 1000000
set_option maxRecDepth 10000

/-!
Shallow embedding of the ai-launch-pad orchestration engine
(src/backend/workflows/base_workflow.py, src/backend/workflows/sequential_workflow.py,
src/backend/agents/base_agent.py, src/backend/agents/router_agent.py).

Python dictionaries with string keys are modelled as association lists,
mutation as explicit state passing, raised exceptions as Except.error
carrying the mutated state, and the abstract collaborators
(validate_input / execute / format_output of a concrete agent, i.e. one
external invocation of the text-generation backend per call) as an oracle
script indexed by the number of calls made so far.
-/

namespace AiLaunchPad

/-- Python dict with string keys and string values (RunContext). -/
abbrev Ctx := List (String × String)

/-- Python dict assignment d[k] = v : replace in place if the key exists,
otherwise append (insertion order preserved). -/
def ctxSet (c : Ctx) (k v : String) : Ctx :=
  if (c.map Prod.fst).contains k then
    c.map (fun p => if p.1 = k then (k, v) else p)
  else c ++ [(k, v)]

/-- Python dict.pop(k, None): remove the key if present. -/
def ctxPop (c : Ctx) (k : String) : Ctx :=
  c.filter (fun p => p.1 ≠ k)

/-- AgentState enum from base_agent.py. -/
inductive AgentState where
  | idle
  | running
  | completed
  | failed
  deriving DecidableEq, Repr

/-- One entry of BaseAgent._execution_history. -/
structure HistEntry where
  task : String
  ctx : Ctx
  result : Option String
  error : Option String
  state : String
  deriving DecidableEq, Repr

/-- A BaseAgent instance.  The abstract validate_input/execute/format_output
pipeline (one external call per invocation) is modelled by the oracle
`script`, consumed one entry per `_execute_with_error_handling` call via the
call counter `calls`: `.ok r` means the pipeline returned formatted result r,
`.error e` means it raised an exception rendering to message e (this includes
the ValueError "Invalid input" raised on failed validation). -/
structure Agent where
  name : String
  state : AgentState
  history : List HistEntry
  ctxStore : List (String × String × String)
  script : Nat → Except String String
  calls : Nat

/-- BaseAgent._execute_with_error_handling (base_agent.py lines 106-172):
set running state; run the abstract pipeline; on success store context,
append a completed history entry, set completed state and return the result;
on an exception append a failed history entry, set failed state and re-raise. -/
def execWEH (a : Agent) (task : String) (ctx : Ctx) : Except String String × Agent :=
  match a.script a.calls with
  | .ok r =>
      (.ok r,
        { a with
          state := .completed,
          history := a.history ++ [⟨task, ctx, some r, none, "completed"⟩],
          ctxStore := a.ctxStore ++ [("agent", task, r)],
          calls := a.calls + 1 })
  | .error e =>
      (.error e,
        { a with
          state := .failed,
          history := a.history ++ [⟨task, ctx, none, some e, "failed"⟩],
          calls := a.calls + 1 })

/-- Python str.startswith for the "Error:" convention, on the char list. -/
def beginsWith : List Char → List Char → Bool
  | [], _ => true
  | _ :: _, [] => false
  | p :: ps, c :: cs => p = c && beginsWith ps cs

/-- Rendering of Python's last_error in the exhaustion message of
execute_with_retry: the f-string prints None as "None". -/
def optStr : Option String → String
  | none => "None"
  | some e => e

/-- RouterAgent.execute_with_retry loop body (router_agent.py lines 266-287):
for attempt in range(max_retries) — the range is a fixed iteration count, so
the loop recurses on the number of remaining attempts.  Each attempt runs
the agent; a returned string counts as success unless it starts with
"Error:"; exceptions are caught into last_error; on exhaustion a degraded
message naming the attempt count and last error is returned. -/
def retryLoop (maxRetries : Nat) :
    Nat → Agent → String → Ctx → Option String → String × Agent
  | 0, a, _, _, lastError =>
      ("Failed after " ++ toString maxRetries ++ " attempts. Last error: " ++
        optStr lastError, a)
  | rem + 1, a, task, ctx, _lastError =>
      let p := execWEH a task ctx
      match p.1 with
      | .ok r =>
          if beginsWith ("Error:".data) r.data then
            retryLoop maxRetries rem p.2 task ctx (some r)
          else (r, p.2)
      | .error e => retryLoop maxRetries rem p.2 task ctx (some e)

/-- RouterAgent.execute_with_retry (router_agent.py lines 249-287). -/
def executeWithRetry (maxRetries : Nat) (a : Agent) (task : String) (ctx : Ctx) :
    String × Agent :=
  retryLoop maxRetries maxRetries a task ctx none

/-- An attempt counts as failed iff it raises or its text starts with "Error:". -/
def attemptFailed : Except String String → Bool
  | .error _ => true
  | .ok r => beginsWith ("Error:".data) r.data

/-- The text the failed attempt contributes as last_error. -/
def outcomeText : Except String String → String
  | .error e => e
  | .ok r => r

/-- WorkflowState enum from base_workflow.py. -/
inductive WorkflowState where
  | idle
  | running
  | completed
  | failed
  | rolledBack
  deriving DecidableEq, Repr

/-- One entry of the results list built by SequentialWorkflow.execute.
The Python dict carries a "recovered": True key only on the recovery path;
its absence on the normal path is modelled as recovered = false. -/
structure StepResult where
  agent : String
  input : String
  output : String
  step : Nat
  recovered : Bool
  deriving DecidableEq, Repr

/-- A checkpoint dict from SequentialWorkflow._save_checkpoint. -/
structure Checkpoint where
  step : Nat
  results : List StepResult
  ctx : Ctx
  deriving DecidableEq, Repr

/-- The dict returned by SequentialWorkflow.execute on success. -/
structure ExecOutput where
  workflowType : String
  totalSteps : Nat
  agentsExecuted : Nat
  results : List StepResult
  finalOutput : Option String
  ctx : Ctx
  deriving DecidableEq, Repr

/-- One entry of BaseWorkflow._execution_history (_record_execution); the
wall-clock timestamp field is not modelled. -/
structure ExecRecord where
  task : String
  ctx : Option Ctx
  result : Option ExecOutput
  status : String
  error : Option String
  step : Nat

/-- A SequentialWorkflow instance: the BaseWorkflow fields plus the
checkpoint list and failed-step marker.  `trace` is a ghost log of every
_set_state call, recording the state transitions of the run. -/
structure SeqWorkflow where
  name : String
  descr : String
  agents : List Agent
  maxSteps : Nat
  state : WorkflowState
  currentStep : Nat
  executionHistory : List ExecRecord
  checkpoints : List Checkpoint
  failedStep : Option Nat
  trace : List WorkflowState

/-- SequentialWorkflow.__init__ (with BaseWorkflow.__init__, default
max_steps = 20). -/
def mkSeqWorkflow (name descr : String) (agents : List Agent)
    (maxSteps : Nat := 20) : SeqWorkflow :=
  { name := name, descr := descr, agents := agents, maxSteps := maxSteps,
    state := .idle, currentStep := 0, executionHistory := [],
    checkpoints := [], failedStep := none, trace := [] }

/-- BaseWorkflow._set_state. -/
def setStateW (w : SeqWorkflow) (s : WorkflowState) : SeqWorkflow :=
  { w with state := s, trace := w.trace ++ [s] }

/-- SequentialWorkflow._save_checkpoint list update: append the snapshot,
then if the list holds more than 3 entries pop the oldest (index 0). -/
def pushCheckpoint (cps : List Checkpoint) (cp : Checkpoint) : List Checkpoint :=
  let l := cps ++ [cp]
  if 3 < l.length then l.drop 1 else l

/-- SequentialWorkflow._save_checkpoint (lines 126-137): the snapshot is
{current step, copy of the results list, copy of the context}. -/
def saveCheckpointW (w : SeqWorkflow) (results : List StepResult) (ctx : Ctx) :
    SeqWorkflow :=
  { w with checkpoints := pushCheckpoint w.checkpoints ⟨w.currentStep, results, ctx⟩ }

/-- SequentialWorkflow._attempt_recovery (lines 139-165): reset the failing
agent to idle, pop its most recent history entry (if any), return True.
The try body cannot raise, so the False branch of the source is dead;
List.dropLast on [] is [] just as pop() is guarded by the emptiness test. -/
def attemptRecovery (a : Agent) (_task : String) (_ctx : Ctx) : Agent × Bool :=
  ({ a with state := .idle, history := a.history.dropLast }, true)

/-- A placeholder agent for the out-of-range default of List.getD; never
reached when the loop is entered through seqExecute, whose iteration count
equals the number of remaining agents. -/
def arbAgent : Agent := ⟨"", .idle, [], [], fun _ => .error "unreachable", 0⟩

/-- The per-agent loop of SequentialWorkflow.execute (lines 56-124):
for i in range(start_step, len(self.agents)) iterates a fixed number of
times, so the loop recurses on the remaining iteration count, with i the
current index and the accumulated results, current task and context.
Exceptions are modelled as Except.error carrying the message and the mutated
workflow (Python mutations survive a raise).  On a first-attempt failure the
failed step is recorded, one inline recovery is attempted (always reported
successful), the same step is retried once with the same task and context,
without saving a checkpoint on retry success; a second failure propagates.
Falling off the loop clears the failure marker and the checkpoints and builds
the result dict. -/
def execLoop : Nat → SeqWorkflow → Nat → List StepResult → String → Ctx →
    Except (String × SeqWorkflow) (ExecOutput × SeqWorkflow)
  | 0, w, _, results, _, ctx =>
      .ok
        ({ workflowType := "sequential", totalSteps := w.currentStep,
           agentsExecuted := results.length, results := results,
           finalOutput := (results.getLast?).map (fun r => r.output),
           ctx := ctx },
         { w with failedStep := none, checkpoints := [] })
  | fuel + 1, w, i, results, task, ctx =>
      let a := w.agents.getD i arbAgent
      let w1 := { w with currentStep := i + 1 }
      if w1.maxSteps < i + 1 then
        .error ("Exceeded maximum steps: " ++ toString w1.maxSteps, w1)
      else
        let p := execWEH a task ctx
        match p.1 with
        | .ok r =>
            let results' := results ++ [⟨a.name, task, r, i + 1, false⟩]
            let ctx' := ctxSet ctx (a.name ++ "_output") r
            let w2 := saveCheckpointW { w1 with agents := w1.agents.set i p.2 }
              results' ctx'
            execLoop fuel w2 (i + 1) results' r ctx'
        | .error _ =>
            let w2 := { w1 with agents := w1.agents.set i p.2, failedStep := some i }
            let aRec := (attemptRecovery p.2 task ctx).1
            let q := execWEH aRec task ctx
            match q.1 with
            | .ok r =>
                let results' := results ++ [⟨a.name, task, r, i + 1, true⟩]
                let ctx' := ctxSet ctx (a.name ++ "_output") r
                let w3 := { w2 with agents := w2.agents.set i q.2, failedStep := none }
                execLoop fuel w3 (i + 1) results' r ctx'
            | .error e2 =>
                .error (e2, { w2 with agents := w2.agents.set i q.2 })

/-- The resume start index of SequentialWorkflow.execute (lines 39-43):
the failed-step marker if it is set and at least one checkpoint exists,
otherwise 0. -/
def resumeStart (w : SeqWorkflow) : Nat :=
  if w.failedStep.isSome ∧ w.checkpoints ≠ [] then (w.failedStep).getD 0 else 0

/-- SequentialWorkflow.execute (lines 20-124): raise on an empty agent list;
restore context / results / current task from the most recent checkpoint when
resuming from a recorded failure; then run the agent loop. -/
def seqExecute (w : SeqWorkflow) (task : String) (ctx? : Option Ctx) :
    Except (String × SeqWorkflow) (ExecOutput × SeqWorkflow) :=
  if w.agents.isEmpty then .error ("No agents configured for workflow", w)
  else
    let ctx0 := ctx?.getD []
    let startStep := resumeStart w
    let last := w.checkpoints.getLastD ⟨0, [], []⟩
    let ctx1 := if w.failedStep.isSome ∧ w.checkpoints ≠ [] then last.ctx else ctx0
    let results0 := if 0 < startStep ∧ w.checkpoints ≠ [] then last.results else []
    let task0 :=
      if 0 < startStep ∧ w.checkpoints ≠ [] ∧ results0 ≠ [] then
        (results0.getLastD ⟨"", "", "", 0, false⟩).output
      else task
    execLoop (w.agents.length - startStep) w startStep results0 task0 ctx1

/-- BaseWorkflow._record_execution. -/
def recordExec (w : SeqWorkflow) (task : String) (ctx : Option Ctx)
    (result : Option ExecOutput) (status : String) (error : Option String) :
    SeqWorkflow :=
  { w with executionHistory := w.executionHistory ++
      [⟨task, ctx, result, status, error, w.currentStep⟩] }

/-- BaseWorkflow._rollback (lines 159-179).  The loop body evaluates
agent.AgentState, an attribute neither BaseAgent nor any subclass or instance
defines, so with at least one agent it raises AttributeError before touching
any state; the except branch logs and returns False, leaving the workflow
state and every agent state unchanged.  Only with an empty agent list does
the body complete, setting ROLLED_BACK and returning True. -/
def rollbackW (w : SeqWorkflow) : Bool × SeqWorkflow :=
  match w.agents with
  | [] => (true, setStateW w .rolledBack)
  | _ :: _ => (false, w)

/-- Values of the result dict returned by BaseWorkflow.run. -/
inductive RVal where
  | s : String → RVal
  | n : Nat → RVal
  | b : Bool → RVal
  | out : ExecOutput → RVal
  deriving DecidableEq, Repr

/-- Result-dict lookup. -/
def rlookup (r : List (String × RVal)) (k : String) : Option RVal :=
  (r.find? (fun p => p.1 = k)).map Prod.snd

/-- BaseWorkflow.run (lines 78-127), parameterised over the execute method
(SequentialWorkflow passes seqExecute).  The run duration is the elapsed
wall-clock time, supplied as the parameter dur.  On success the returned dict
has keys status, result, steps, duration; on an exception the workflow is
marked failed, rollback is attempted, and the dict has keys status, error,
steps, duration, rollback. -/
def runW
    (exec : SeqWorkflow → String → Option Ctx →
      Except (String × SeqWorkflow) (ExecOutput × SeqWorkflow))
    (w : SeqWorkflow) (task : String) (ctx : Option Ctx) (dur : Nat) :
    List (String × RVal) × SeqWorkflow :=
  let w1 := setStateW { w with currentStep := 0 } .running
  match exec w1 task ctx with
  | .ok (res, w2) =>
      let w3 := setStateW (recordExec w2 task ctx (some res) "completed" none)
        .completed
      ([("status", .s "success"), ("result", .out res),
        ("steps", .n w3.currentStep), ("duration", .n dur)], w3)
  | .error (e, w2) =>
      let w3 := setStateW (recordExec w2 task ctx none "failed" (some e)) .failed
      let rb := rollbackW w3
      ([("status", .s "failed"), ("error", .s e),
        ("steps", .n rb.2.currentStep), ("duration", .n dur),
        ("rollback", .b rb.1)], rb.2)

/-- BaseWorkflow.clear_history. -/
def clearHistoryW (w : SeqWorkflow) : SeqWorkflow :=
  { w with executionHistory := [], currentStep := 0 }

/-- SequentialWorkflow.reset (lines 167-173). -/
def resetW (w : SeqWorkflow) : SeqWorkflow :=
  setStateW
    { clearHistoryW w with checkpoints := [], failedStep := none } .idle

/-- Python str.lower on a char list (the inputs of interest are ASCII). -/
def toLowerL (s : List Char) : List Char := s.map Char.toLower

/-- Python substring test (pat in s) on char lists. -/
def containsSub : List Char → List Char → Bool
  | [], pat => pat.isEmpty
  | c :: cs, pat => beginsWith pat (c :: cs) || containsSub cs pat

/-- A Bool beginsWith bounds the lengths (termination helper). -/
def beginsWith_le {p s : List Char} (h : beginsWith p s = true) :
    p.length ≤ s.length := by
  induction p generalizing s with
  | nil => simp
  | cons c cs ih =>
    cases s with
    | nil => simp [beginsWith] at h
    | cons d ds =>
      simp only [beginsWith, Bool.and_eq_true] at h
      simpa [Nat.succ_le_succ_iff] using ih h.2

/-- The decimal digit character for n < 10. -/
def digitChar (n : Nat) : Char := Char.ofNat (48 + n)

/-- Fuelled decimal rendering (any fuel above n computes the full form). -/
def natReprF : Nat → Nat → List Char
  | 0, _ => []
  | fuel + 1, n =>
      if n < 10 then [digitChar n]
      else natReprF fuel (n / 10) ++ [digitChar (n % 10)]

/-- Decimal rendering of a natural number, modelling Python's str(int)
as used by the f-string rebuilding a placeholder from its parsed number. -/
def natRepr (n : Nat) : List Char := natReprF (n + 1) n

/-- Python int() on a nonempty decimal digit string. -/
def digitsToNat (ds : List Char) : Nat :=
  ds.foldl (fun acc c => acc * 10 + (c.toNat - 48)) 0

/-- One attempted match of the regex  backslash-brace step_ (digits+) _output
brace  at the head of the list: on success returns the captured digit string
and the remainder after the match (the digits are maximal and must be
followed by the literal _output and closing brace, exactly as the regex
backtracking behaves). -/
def matchTok (s : List Char) : Option (List Char × List Char) :=
  if beginsWith ("\x7bstep_".data) s then
    let t := s.drop 6
    let ds := t.takeWhile Char.isDigit
    if ds.isEmpty then none
    else if beginsWith ("_output\x7d".data) (t.drop ds.length) then
      some (ds, t.drop (ds.length + 8))
    else none
  else none

/-- A successful token match consumes at least one character (termination
helper). -/
def matchTok_some_length {s ds rest : List Char}
    (h : matchTok s = some (ds, rest)) : rest.length < s.length := by
  unfold matchTok at h
  split at h
  case isTrue hb =>
    have hlen : 6 ≤ s.length := by
      simpa using beginsWith_le hb
    dsimp only at h
    split at h
    · exact absurd h (by simp)
    · split at h
      · injection h with h1
        injection h1 with h1 h2
        subst h2
        simp only [List.length_drop]
        omega
      · exact absurd h (by simp)
  case isFalse => exact absurd h (by simp)

/-- Fuelled scan for re.findall (each step consumes at least one character,
so any fuel at or above the length of the text computes the full scan). -/
def findTokensF : Nat → List Char → List (List Char)
  | 0, _ => []
  | fuel + 1, s =>
      match s with
      | [] => []
      | c :: cs =>
        match matchTok (c :: cs) with
        | some (ds, rest) => ds :: findTokensF fuel rest
        | none => findTokensF fuel cs

/-- re.findall of the placeholder regex over the text: scan left to right,
collect the captured digit strings of non-overlapping matches in order,
continuing after each match. -/
def findTokens (s : List Char) : List (List Char) := findTokensF s.length s

/-- Fuelled scan for str.replace (each step consumes at least one
character). -/
def replaceAllF (old new : List Char) : Nat → List Char → List Char
  | 0, _ => []
  | fuel + 1, s =>
      match s with
      | [] => []
      | c :: cs =>
        if beginsWith old (c :: cs) ∧ old ≠ [] then
          new ++ replaceAllF old new fuel ((c :: cs).drop old.length)
        else c :: replaceAllF old new fuel cs

/-- Python str.replace(old, new) with nonempty old: scan left to right,
replace each non-overlapping occurrence, never rescanning replaced text. -/
def replaceAll (s old new : List Char) : List Char :=
  replaceAllF old new s.length s

/-- The canonical text of the placeholder token for step n, as rebuilt by the
f-string in _substitute_placeholders from the parsed integer. -/
def tokChars (n : Nat) : List Char :=
  ("\x7bstep_".data) ++ natRepr n ++ ("_output\x7d".data)

/-- One entry of the results list built by RouterAgent.execute. -/
structure RouterStep where
  task : String
  agent : String
  result : String
  deriving DecidableEq, Repr

/-- The body of the substitution loop of _substitute_placeholders: for one
captured digit string, parse it; if the number is between 1 and the count of
recorded results, replace every occurrence of the canonical token rebuilt
from the number by that step's result text, else leave the text unchanged
(out-of-range numbers only log a warning). -/
def substStep (results : List RouterStep) (t : List Char) (ds : List Char) :
    List Char :=
  let n := digitsToNat ds
  if 1 ≤ n ∧ n ≤ results.length then
    replaceAll t (tokChars n) ((results.getD (n - 1) ⟨"", "", ""⟩).result.data)
  else t

/-- RouterAgent._substitute_placeholders (router_agent.py lines 147-162):
find all placeholder tokens in the original task, then run the replacement
loop over the captured digit strings in document order. -/
def substitutePlaceholders (task : String) (results : List RouterStep) : String :=
  let toks := findTokens task.data
  if toks.isEmpty then task
  else String.mk (toks.foldl (substStep results) task.data)

/-- Fuelled scan for the spec-side simultaneous resolution. -/
def specResolveF (results : List RouterStep) : Nat → List Char → List Char
  | 0, _ => []
  | fuel + 1, s =>
      match s with
      | [] => []
      | c :: cs =>
        match matchTok (c :: cs) with
        | some (ds, rest) =>
            let n := digitsToNat ds
            if 1 ≤ n ∧ n ≤ results.length then
              ((results.getD (n - 1) ⟨"", "", ""⟩).result.data) ++
                specResolveF results fuel rest
            else
              ("\x7bstep_".data ++ ds ++ "_output\x7d".data) ++
                specResolveF results fuel rest
        | none => c :: specResolveF results fuel cs

/-- Modelled from the spec: simultaneous placeholder resolution as the spec
words it — scan the text once; every occurrence of a placeholder token whose
number is within the count of already-recorded results is replaced by the
string form of that step's result, all occurrences of the same token
identically; an occurrence with an out-of-range number is kept verbatim.
This is the spec-side reference that substitutePlaceholders is compared
against. -/
def specResolve (results : List RouterStep) (s : List Char) : List Char :=
  specResolveF results s.length s

/-- A text with no opening brace (so it can contain no placeholder token). -/
def braceFree (l : List Char) : Bool := l.all (fun c => c != '\x7b')

/-- A component of a task text: either a literal segment or a canonical
placeholder token for a step number. -/
inductive Comp where
  | seg : List Char → Comp
  | tk : Nat → Comp

/-- The task text denoted by a component list. -/
def flattenC : List Comp → List Char
  | [] => []
  | .seg d :: cs => d ++ flattenC cs
  | .tk n :: cs => tokChars n ++ flattenC cs

/-- Well-formed component list: every literal segment is brace-free. -/
def compWF (comps : List Comp) : Bool :=
  comps.all (fun c => match c with | .seg d => braceFree d | .tk _ => true)

/-- The step numbers of the tokens of a component list, in order. -/
def tokensOfC (comps : List Comp) : List Nat :=
  comps.filterMap (fun c => match c with | .tk n => some n | .seg _ => none)

/-- Replace every token for step n by the replacement text r. -/
def replC (comps : List Comp) (n : Nat) (r : List Char) : List Comp :=
  comps.map (fun c => match c with
    | .tk m => if m = n then .seg r else .tk m
    | .seg d => .seg d)

/-- One pass of the substitution loop at the component level. -/
def replNum (results : List RouterStep) (comps : List Comp) (n : Nat) :
    List Comp :=
  if 1 ≤ n ∧ n ≤ results.length then
    replC comps n ((results.getD (n - 1) ⟨"", "", ""⟩).result.data)
  else comps

/-- Replace every token whose number is in ms and in range. -/
def multiRepl (results : List RouterStep) (ms : List Nat) (comps : List Comp) :
    List Comp :=
  comps.map (fun c => match c with
    | .tk m =>
        if m ∈ ms ∧ 1 ≤ m ∧ m ≤ results.length then
          .seg ((results.getD (m - 1) ⟨"", "", ""⟩).result.data)
        else .tk m
    | .seg d => .seg d)

/-- Simultaneous substitution at the component level (what the spec
prescribes for a well-formed task). -/
def substC (results : List RouterStep) (comps : List Comp) : List Comp :=
  comps.map (fun c => match c with
    | .tk m =>
        if 1 ≤ m ∧ m ≤ results.length then
          .seg ((results.getD (m - 1) ⟨"", "", ""⟩).result.data)
        else .tk m
    | .seg d => .seg d)

/-- RouterAgent.select_agent response handling (lines 233-247): lower-case
the response text; if it contains "agent: none" return no agent; otherwise
return the first available agent (dict iteration = insertion order) whose
lower-cased name occurs in the text; otherwise no agent.  The prompt
construction and the external LLM call are the collaborator producing
`content`. -/
def selectAgent (avail : List (String × Agent)) (content : String) :
    Option Agent :=
  let lc := toLowerL content.data
  if containsSub lc ("agent: none".data) then none
  else
    match avail.find? (fun p => containsSub lc (toLowerL p.1.data)) with
    | some p => some p.2
    | none => none

/-- The cross-step summary string built by RouterAgent.execute (lines 90-96). -/
def summaryText (results : List RouterStep) : String :=
  "You are part of a multi-step workflow. Here is a summary of the previous steps:\n" ++
    String.intercalate "\n"
      (results.enum.map (fun p =>
        "- Step " ++ toString (p.1 + 1) ++ " (executed by " ++ p.2.agent ++
          "):\n  Task: " ++ p.2.task ++ "\n  Result: " ++ p.2.result))

/-- RouterAgent.aggregate_results (lines 289-312). -/
def aggregateResults (results : List RouterStep) : String :=
  if results.isEmpty then "No results to aggregate"
  else
    "## Task Execution Summary\n\n" ++
      String.join (results.enum.map (fun p =>
        "### Step " ++ toString (p.1 + 1) ++ ": " ++ p.2.task ++ "\n" ++
        "**Agent**: " ++ p.2.agent ++ "\n" ++
        "**Result**: " ++ p.2.result ++ "\n\n")) ++
      "**Total Steps Completed**: " ++ toString results.length

/-- Replace a named agent's entry after its mutation by a retry run (the
Python dict holds the mutated object itself). -/
def updAgent (avail : List (String × Agent)) (name : String) (a : Agent) :
    List (String × Agent) :=
  avail.map (fun p => if p.1 = name then (p.1, a) else p)

/-- The per-subtask loop of RouterAgent.execute (lines 72-113): substitute
placeholders, select an agent for the resolved task (selResp i being the
selection response the LLM collaborator returns at loop position i); a "none"
selection breaks out and the results so far are aggregated; otherwise the
summary context entry is rebuilt (cleared before the first step), the step
runs under execute_with_retry, and its record is appended. -/
def routerLoop (maxRetries : Nat) (selResp : Nat → String)
    (avail : List (String × Agent)) (subtasks : List String) (i : Nat)
    (results : List RouterStep) (ctx : Ctx) : String :=
  match subtasks with
  | [] => aggregateResults results
  | s :: rest =>
    let currentTask := substitutePlaceholders s results
    match selectAgent avail (selResp i) with
    | none => aggregateResults results
    | some ag =>
      let ctx' := if 0 < i ∧ results ≠ [] then
          ctxSet ctx "summary" (summaryText results)
        else ctxPop ctx "summary"
      let er := executeWithRetry maxRetries ag currentTask ctx'
      routerLoop maxRetries selResp (updAgent avail ag.name er.2) rest (i + 1)
        (results ++ [⟨currentTask, ag.name, er.1⟩]) ctx'

/-! Concrete scenarios used by the counterexamples and witnesses below. -/

/-- A fresh agent whose external pipeline follows the finite script sc
(raising "script exhausted" beyond its end). -/
def ag (nm : String) (sc : List (Except String String)) : Agent :=
  ⟨nm, .idle, [], [], fun k => sc.getD k (.error "script exhausted"), 0⟩

/-- The workflow state carried by either outcome of an execute call. -/
def exState : Except (String × SeqWorkflow) (ExecOutput × SeqWorkflow) →
    SeqWorkflow
  | .ok (_, w) => w
  | .error (_, w) => w

/-- A workflow with a single agent whose every invocation raises. -/
def wFail : SeqWorkflow :=
  mkSeqWorkflow "wf" "d" [ag "a0" [.error "boom", .error "boom2"]]

/-- The run of wFail: the execute phase raises on both the first attempt and
the recovery retry, so the fault reaches BaseWorkflow.run. -/
def runFail : List (String × RVal) × SeqWorkflow :=
  runW seqExecute wFail "T" none 0

/-- A workflow with a single agent that succeeds at once. -/
def wOk : SeqWorkflow := mkSeqWorkflow "wf" "d" [ag "a0" [.ok "A0"]]

/-- The successful execute outcome of wOk. -/
def okOut : ExecOutput :=
  ⟨"sequential", 1, 1, [⟨"a0", "T", "A0", 1, false⟩], some "A0",
    [("a0_output", "A0")]⟩

/-- The workflow state after the successful execute of wOk. -/
def okState : SeqWorkflow := exState (seqExecute wOk "T" none)

/-- Scenario for the checkpoint claims: agent a0 fails once and succeeds on
the inline-recovery retry, then agent a1 fails on both attempts. -/
def wRec : SeqWorkflow :=
  mkSeqWorkflow "wf" "d"
    [ag "a0" [.error "x", .ok "A0"], ag "a1" [.error "y1", .error "y2"]]

/-- The workflow state after the raising execute of wRec. -/
def wRecAfter : SeqWorkflow := exState (seqExecute wRec "T" none)

/-- Scenario for the resume claim: a0 succeeds (checkpointed at step 1),
a1 fails once and recovers inline (not checkpointed), a2 fails on both
attempts, so the run raises with the failed-step marker at index 2 while the
most recent checkpoint is the step-1 snapshot. -/
def wResume : SeqWorkflow :=
  mkSeqWorkflow "wf" "d"
    [ag "a0" [.ok "A0"], ag "a1" [.error "e1", .ok "A1"],
     ag "a2" [.error "e2a", .error "e2b"]]

/-- The workflow state after the raising execute of wResume. -/
def wResumeAfter : SeqWorkflow := exState (seqExecute wResume "T" none)

/-- A retry scenario: soft failure, hard failure, then success on the third
attempt. -/
def agRetry : Agent := ag "r" [.ok "Error: bad", .error "boom", .ok "fine"]

/-- A selectable agent for the router scenarios. -/
def agTask1 : Agent := ag "TaskAgent1" [.ok "done"]

/-- Recorded results "A" and "B" for the substitution examples. -/
def rsAB : List RouterStep := [⟨"t1", "ag1", "A"⟩, ⟨"t2", "ag2", "B"⟩]

/-- Recorded results whose second entry itself spells the tail of a
placeholder token, used by the substitution counterexample. -/
def rsXB : List RouterStep := [⟨"t1", "ag1", "X"⟩, ⟨"t2", "ag2", "1_output\x7d"⟩]

/-- The component form of "Use (step 1 token) and (step 2 token)". -/
def compsAB : List Comp :=
  [.seg "Use ".data, .tk 1, .seg " and ".data, .tk 2]

/-- The component form of a lone out-of-range step-5 token. -/
def comps5 : List Comp := [.seg "Keep ".data, .tk 5, .seg " here".data]

/-! Theorems. -/

/-- C1: the claim states that a run whose execute phase raises an unrecovered
fault always transitions failed → rolled_back (regardless of rollback
success) and leaves every configured unit idle.  The code cannot do this:
BaseWorkflow._rollback evaluates agent.AgentState, an attribute that neither
BaseAgent nor any subclass or instance defines, so with at least one
configured agent the rollback body raises AttributeError before touching any
state and _rollback returns False.  At this concrete failing input the run
reports status failed with rollback False, the final workflow state is
failed (the state trace shows running → failed and no rolled_back
transition), and the agent is left failed, not idle. -/
theorem C1_rollback_never_reached :
    rlookup runFail.1 "status" = some (.s "failed") ∧
    rlookup runFail.1 "rollback" = some (.b false) ∧
    runFail.2.state = .failed ∧
    runFail.2.trace = [.running, .failed] ∧
    runFail.2.agents.map (fun a => a.state) = [.failed] := by
  decide

/-- C2 (counterexample): the claim requires a boolean rollback field in the
result mapping of every invocation, but on a successful run the mapping
returned by BaseWorkflow.run has no rollback key at all. -/
theorem C2_success_lacks_rollback :
    rlookup (runW seqExecute wOk "T" none 7).1 "status" = some (.s "success") ∧
    rlookup (runW seqExecute wOk "T" none 7).1 "rollback" = none := by
  decide

/-- C2 (amended): the result mapping of every invocation of BaseWorkflow.run
contains a status field (success or failed), a result field on success or an
error field on failure, an integer steps field and a duration field in
seconds; the boolean rollback field is present on failure only — the success
mapping omits it. -/
theorem C2_run_result_contract
    (exec : SeqWorkflow → String → Option Ctx →
      Except (String × SeqWorkflow) (ExecOutput × SeqWorkflow))
    (w : SeqWorkflow) (task : String) (ctx : Option Ctx) (dur : Nat) :
    (rlookup (runW exec w task ctx dur).1 "status" = some (.s "success") ∧
      (∃ o, rlookup (runW exec w task ctx dur).1 "result" = some (.out o)) ∧
      (∃ n, rlookup (runW exec w task ctx dur).1 "steps" = some (.n n)) ∧
      rlookup (runW exec w task ctx dur).1 "duration" = some (.n dur) ∧
      rlookup (runW exec w task ctx dur).1 "rollback" = none ∧
      rlookup (runW exec w task ctx dur).1 "error" = none) ∨
    (rlookup (runW exec w task ctx dur).1 "status" = some (.s "failed") ∧
      (∃ e, rlookup (runW exec w task ctx dur).1 "error" = some (.s e)) ∧
      (∃ n, rlookup (runW exec w task ctx dur).1 "steps" = some (.n n)) ∧
      rlookup (runW exec w task ctx dur).1 "duration" = some (.n dur) ∧
      (∃ b, rlookup (runW exec w task ctx dur).1 "rollback" = some (.b b)) ∧
      rlookup (runW exec w task ctx dur).1 "result" = none) := by
  rcases hx : exec (setStateW { w with currentStep := 0 } .running) task ctx with
    ⟨e, w2⟩ | ⟨res, w2⟩
  · right
    simp only [runW]
    rw [hx]
    exact ⟨rfl, ⟨e, rfl⟩, ⟨_, rfl⟩, rfl, ⟨_, rfl⟩, rfl⟩
  · left
    simp only [runW]
    rw [hx]
    exact ⟨rfl, ⟨res, rfl⟩, ⟨_, rfl⟩, rfl, rfl, rfl⟩

/-- One agent invocation consumes exactly one script entry: its outcome is
the script at the current counter, and the script survives unchanged. -/
theorem execWEH_proj (a : Agent) (task : String) (ctx : Ctx) :
    (execWEH a task ctx).1 = a.script a.calls ∧
    (execWEH a task ctx).2.script = a.script ∧
    (execWEH a task ctx).2.calls = a.calls + 1 := by
  cases h : a.script a.calls <;> simp [execWEH, h]

/-- If every remaining attempt fails (raises or returns an "Error:" string),
the retry loop returns the degraded message naming max_retries and the last
observed failure. -/
theorem retryLoop_allFail (mr : Nat) :
    ∀ (rem : Nat) (a : Agent) (task : String) (ctx : Ctx) (le : Option String),
      (∀ j, j < rem → attemptFailed (a.script (a.calls + j)) = true) →
      (retryLoop mr rem a task ctx le).1 =
        "Failed after " ++ toString mr ++ " attempts. Last error: " ++
          optStr (if 0 < rem then
            some (outcomeText (a.script (a.calls + (rem - 1)))) else le) := by
  intro rem
  induction rem with
  | zero =>
    intro a task ctx le _h
    simp [retryLoop]
  | succ n ih =>
    intro a task ctx le h
    have h0 := h 0 (Nat.succ_pos n)
    rw [Nat.add_zero] at h0
    have hstep : ∀ (st : AgentState) (hist : List HistEntry)
        (cst : List (String × String × String)) (le' : Option String),
        (retryLoop mr n ⟨a.name, st, hist, cst, a.script, a.calls + 1⟩
            task ctx le').1 =
          "Failed after " ++ toString mr ++ " attempts. Last error: " ++
            optStr (if 0 < n then
              some (outcomeText (a.script (a.calls + n))) else le') := by
      intro st hist cst le'
      rw [ih ⟨a.name, st, hist, cst, a.script, a.calls + 1⟩ task ctx le' ?_]
      · congr 1
        by_cases hn : 0 < n
        · rw [if_pos hn, if_pos hn]
          have e : a.calls + 1 + (n - 1) = a.calls + n := by omega
          dsimp only
          rw [e]
        · rw [if_neg hn, if_neg hn]
      · intro j hj
        show attemptFailed (a.script (a.calls + 1 + j)) = true
        have e : a.calls + 1 + j = a.calls + (j + 1) := by omega
        rw [e]
        exact h (j + 1) (by omega)
    rw [if_pos (Nat.succ_pos n), Nat.succ_sub_one]
    cases hs : a.script a.calls with
    | ok r =>
      have herr : beginsWith ("Error:".data) r.data = true := by
        simpa [attemptFailed, hs] using h0
      simp only [retryLoop, execWEH, hs, herr, if_true]
      rw [hstep _ _ _ (some r)]
      by_cases hn : 0 < n
      · rw [if_pos hn]
      · have hn0 : n = 0 := by omega
        subst hn0
        simp [hs, outcomeText]
    | error e =>
      simp only [retryLoop, execWEH, hs]
      rw [hstep _ _ _ (some e)]
      by_cases hn : 0 < n
      · rw [if_pos hn]
      · have hn0 : n = 0 := by omega
        subst hn0
        simp [hs, outcomeText]

/-- If attempt k is the first success (returns text not starting with
"Error:"), the retry loop returns exactly that text. -/
theorem retryLoop_firstSuccess (mr : Nat) :
    ∀ (k rem : Nat) (a : Agent) (task : String) (ctx : Ctx) (le : Option String)
      (r : String),
      k < rem →
      a.script (a.calls + k) = .ok r →
      beginsWith ("Error:".data) r.data = false →
      (∀ j, j < k → attemptFailed (a.script (a.calls + j)) = true) →
      (retryLoop mr rem a task ctx le).1 = r := by
  intro k
  induction k with
  | zero =>
    intro rem a task ctx le r hk hok herr _hfail
    obtain ⟨n, rfl⟩ : ∃ n, rem = n + 1 := ⟨rem - 1, by omega⟩
    rw [Nat.add_zero] at hok
    simp [retryLoop, execWEH, hok, herr]
  | succ k ih =>
    intro rem a task ctx le r hk hok herr hfail
    obtain ⟨n, rfl⟩ : ∃ n, rem = n + 1 := ⟨rem - 1, by omega⟩
    have h0 := hfail 0 (Nat.succ_pos k)
    rw [Nat.add_zero] at h0
    have hnext : ∀ (st : AgentState) (hist : List HistEntry)
        (cst : List (String × String × String)) (le' : Option String),
        (retryLoop mr n ⟨a.name, st, hist, cst, a.script, a.calls + 1⟩
          task ctx le').1 = r := by
      intro st hist cst le'
      apply ih n ⟨a.name, st, hist, cst, a.script, a.calls + 1⟩ task ctx le' r
        (by omega)
      · show a.script (a.calls + 1 + k) = .ok r
        have e : a.calls + 1 + k = a.calls + (k + 1) := by omega
        rw [e]
        exact hok
      · exact herr
      · intro j hj
        show attemptFailed (a.script (a.calls + 1 + j)) = true
        have e : a.calls + 1 + j = a.calls + (j + 1) := by omega
        rw [e]
        exact hfail (j + 1) (by omega)
    cases hs : a.script a.calls with
    | ok r0 =>
      have herr0 : beginsWith ("Error:".data) r0.data = true := by
        simpa [attemptFailed, hs] using h0
      simp only [retryLoop, execWEH, hs, herr0, if_true]
      exact hnext _ _ _ (some r0)
    | error e =>
      simp only [retryLoop, execWEH, hs]
      exact hnext _ _ _ (some e)

/-- The retry loop makes at most the remaining number of attempts. -/
theorem retryLoop_calls (mr : Nat) :
    ∀ (rem : Nat) (a : Agent) (task : String) (ctx : Ctx) (le : Option String),
      (retryLoop mr rem a task ctx le).2.calls ≤ a.calls + rem := by
  intro rem
  induction rem with
  | zero =>
    intro a task ctx le
    simp [retryLoop]
  | succ n ih =>
    intro a task ctx le
    cases hs : a.script a.calls with
    | ok r =>
      by_cases herr : beginsWith ("Error:".data) r.data
      · simp only [retryLoop, execWEH, hs, herr, if_true]
        calc (retryLoop mr n _ task ctx (some r)).2.calls
            ≤ (a.calls + 1) + n := ih _ task ctx (some r)
          _ = a.calls + (n + 1) := by omega
      · simp only [retryLoop, execWEH, hs]
        rw [if_neg herr]
        simp only []
        omega
    | error e =>
      simp only [retryLoop, execWEH, hs]
      calc (retryLoop mr n _ task ctx (some e)).2.calls
          ≤ (a.calls + 1) + n := ih _ task ctx (some e)
        _ = a.calls + (n + 1) := by omega

/-- C6: RouterAgent.execute_with_retry makes at most max_retries attempts
(the script counter advances by at most max_retries); an attempt counts as
failed iff it raises or its returned text begins with "Error:"
(attemptFailed); if attempt k < max_retries succeeds with every earlier
attempt failed, the result is that attempt's text unchanged; and if all
max_retries attempts fail the call returns — never raises — a string
embedding the attempt count and the last observed failure. -/
theorem C6_execute_with_retry (mr : Nat) (a : Agent) (task : String) (ctx : Ctx) :
    ((executeWithRetry mr a task ctx).2.calls ≤ a.calls + mr) ∧
    (∀ k r, k < mr → a.script (a.calls + k) = .ok r →
      beginsWith ("Error:".data) r.data = false →
      (∀ j, j < k → attemptFailed (a.script (a.calls + j)) = true) →
      (executeWithRetry mr a task ctx).1 = r) ∧
    (0 < mr → (∀ j, j < mr → attemptFailed (a.script (a.calls + j)) = true) →
      (executeWithRetry mr a task ctx).1 =
        "Failed after " ++ toString mr ++ " attempts. Last error: " ++
          outcomeText (a.script (a.calls + (mr - 1)))) := by
  refine ⟨retryLoop_calls mr mr a task ctx none, ?_, ?_⟩
  · intro k r hk hok herr hfail
    exact retryLoop_firstSuccess mr k mr a task ctx none r hk hok herr hfail
  · intro hmr hfail
    rw [executeWithRetry, retryLoop_allFail mr mr a task ctx none hfail,
      if_pos hmr]
    rfl

/-- C6 witness: the agent failing softly ("Error: bad"), then hard ("boom"),
then succeeding on the third of max_retries = 3 attempts returns the success
value; the same agent under max_retries = 2 exhausts its attempts and
returns the degraded message naming the attempt count and the last error. -/
theorem C6_witness :
    (executeWithRetry 3 agRetry "t" []).1 = "fine" ∧
    (executeWithRetry 2 agRetry "t" []).1 =
      "Failed after 2 attempts. Last error: boom" := by
  constructor
  · exact (C6_execute_with_retry 3 agRetry "t" []).2.1 2 "fine" (by decide)
      rfl (by decide) (by decide)
  · have h := (C6_execute_with_retry 2 agRetry "t" []).2.2 (by decide) (by decide)
    rw [h]
    decide

/-- Appending a snapshot keeps the checkpoint list within 3 entries. -/
theorem pushCheckpoint_le (cps : List Checkpoint) (cp : Checkpoint)
    (h : cps.length ≤ 3) : (pushCheckpoint cps cp).length ≤ 3 := by
  simp only [pushCheckpoint]
  split
  · simp only [List.length_drop, List.length_append, List.length_singleton]
    omega
  · rename_i hlt
    simp only [List.length_append, List.length_singleton] at hlt ⊢
    omega

/-- Appending a fourth snapshot evicts the oldest entry (FIFO). -/
theorem pushCheckpoint_evict (cps : List Checkpoint) (cp : Checkpoint)
    (h : cps.length = 3) : pushCheckpoint cps cp = cps.tail ++ [cp] := by
  simp only [pushCheckpoint]
  rw [if_pos (by simp [h])]
  cases cps with
  | nil => simp at h
  | cons x xs => simp

/-- The agent loop never grows the checkpoint list beyond 3 entries: every
mutation of the list inside the loop is a pushCheckpoint, and both exits
carry a list within the bound. -/
theorem execLoop_checkpoints_le :
    ∀ (fuel : Nat) (w : SeqWorkflow) (i : Nat) (results : List StepResult)
      (task : String) (ctx : Ctx),
      w.checkpoints.length ≤ 3 →
      (exState (execLoop fuel w i results task ctx)).checkpoints.length ≤ 3 := by
  intro fuel
  induction fuel with
  | zero =>
    intro w i results task ctx _h
    simp [execLoop, exState]
  | succ n ih =>
    intro w i results task ctx h
    simp only [execLoop, execWEH, attemptRecovery, saveCheckpointW]
    split
    · exact h
    · cases hs : (w.agents.getD i arbAgent).script (w.agents.getD i arbAgent).calls with
      | ok r =>
        simp only []
        exact ih _ _ _ _ _ (pushCheckpoint_le _ _ h)
      | error e =>
        simp only []
        cases hs2 : (w.agents.getD i arbAgent).script
            ((w.agents.getD i arbAgent).calls + 1) with
        | ok r => exact ih _ _ _ _ _ h
        | error e2 => exact h

/-- A successful pass of the agent loop ends with the checkpoints cleared,
the failed-step marker cleared, and the agent list length unchanged. -/
theorem execLoop_ok_props :
    ∀ (fuel : Nat) (w : SeqWorkflow) (i : Nat) (results : List StepResult)
      (task : String) (ctx : Ctx) (o : ExecOutput) (w' : SeqWorkflow),
      execLoop fuel w i results task ctx = .ok (o, w') →
      w'.checkpoints = [] ∧ w'.failedStep = none ∧
        w'.agents.length = w.agents.length := by
  intro fuel
  induction fuel with
  | zero =>
    intro w i results task ctx o w' h
    simp only [execLoop] at h
    injection h with h
    injection h with h1 h2
    subst h2
    exact ⟨rfl, rfl, rfl⟩
  | succ n ih =>
    intro w i results task ctx o w' h
    simp only [execLoop, execWEH, attemptRecovery, saveCheckpointW] at h
    split at h
    · exact absurd h (by simp)
    · revert h
      cases hs : (w.agents.getD i arbAgent).script (w.agents.getD i arbAgent).calls with
      | ok r =>
        intro h
        simp only [] at h
        have := ih _ _ _ _ _ o w' h
        simpa [List.length_set] using this
      | error e =>
        cases hs2 : (w.agents.getD i arbAgent).script
            ((w.agents.getD i arbAgent).calls + 1) with
        | ok r =>
          intro h
          simp only [] at h
          have := ih _ _ _ _ _ o w' h
          simpa [List.length_set] using this
        | error e2 =>
          intro h
          exact absurd h (by simp)

/-- C7: the checkpoint list of a SequentialWorkflow never exceeds 3 entries
at any point: _save_checkpoint preserves the bound, a fourth snapshot evicts
the oldest entry first (FIFO), the agent loop preserves the bound through
every iteration into both of its exits, execute preserves it, and reset
clears the list. -/
theorem C7_checkpoint_bound :
    (∀ cps cp, cps.length ≤ 3 → (pushCheckpoint cps cp).length ≤ 3) ∧
    (∀ cps cp, cps.length = 3 → pushCheckpoint cps cp = cps.tail ++ [cp]) ∧
    (∀ fuel w i results task ctx, w.checkpoints.length ≤ 3 →
      (exState (execLoop fuel w i results task ctx)).checkpoints.length ≤ 3) ∧
    (∀ w task ctx, w.checkpoints.length ≤ 3 →
      (exState (seqExecute w task ctx)).checkpoints.length ≤ 3) ∧
    (∀ w, (resetW w).checkpoints = []) := by
  refine ⟨pushCheckpoint_le, pushCheckpoint_evict, execLoop_checkpoints_le,
    ?_, fun w => rfl⟩
  intro w task ctx h
  simp only [seqExecute]
  split
  · exact h
  · exact execLoop_checkpoints_le _ _ _ _ _ _ h

/-- C7 witness at concrete inputs: a list of three snapshots stays within
the bound and evicts its oldest entry on the fourth push, and the raising
execute of the recovery scenario leaves a checkpoint list within the bound. -/
theorem C7_witness :
    (pushCheckpoint [⟨1, [], []⟩, ⟨2, [], []⟩, ⟨3, [], []⟩] ⟨4, [], []⟩).length ≤ 3 ∧
    pushCheckpoint [⟨1, [], []⟩, ⟨2, [], []⟩, ⟨3, [], []⟩] ⟨4, [], []⟩ =
      [⟨2, [], []⟩, ⟨3, [], []⟩, ⟨4, [], []⟩] ∧
    (exState (seqExecute wResume "T" none)).checkpoints.length ≤ 3 := by
  refine ⟨C7_checkpoint_bound.1 _ _ (by decide), ?_, ?_⟩
  · rw [C7_checkpoint_bound.2.1 _ _ (by decide)]
    decide
  · exact C7_checkpoint_bound.2.2.2.1 wResume "T" none (by decide)

/-- C10: whenever SequentialWorkflow.execute completes all steps without an
unrecovered raise, it has cleared the checkpoint list and the failed-step
marker before returning, so a subsequent invocation on the same instance
runs the loop from step index 0 with an empty restored result list and the
caller-supplied task and context (no restored state). -/
theorem C10_success_clears (w : SeqWorkflow) (task : String) (ctx? : Option Ctx)
    (o : ExecOutput) (w' : SeqWorkflow)
    (h : seqExecute w task ctx? = .ok (o, w')) :
    w'.checkpoints = [] ∧ w'.failedStep = none ∧
    (∀ task2 ctx2, seqExecute w' task2 ctx2 =
      execLoop w'.agents.length w' 0 [] task2 (ctx2.getD [])) := by
  simp only [seqExecute] at h
  split at h
  · exact absurd h (by simp)
  · rename_i hne
    obtain ⟨hcp, hfs, hlen⟩ := execLoop_ok_props _ _ _ _ _ _ o w' h
    refine ⟨hcp, hfs, ?_⟩
    intro task2 ctx2
    have hlen0 : w'.agents.length ≠ 0 := by
      rw [hlen]
      simpa using hne
    have hne' : w'.agents.isEmpty = false := by
      cases hA : w'.agents with
      | nil =>
        rw [hA] at hlen0
        simp at hlen0
      | cons x xs => rfl
    simp [seqExecute, resumeStart, hfs, hne']

/-- C10 witness: the one-agent success scenario ends with empty checkpoints,
no failed-step marker, and a fresh-start next invocation. -/
theorem C10_witness :
    okState.checkpoints = [] ∧ okState.failedStep = none ∧
    (∀ task2 ctx2, seqExecute okState task2 ctx2 =
      execLoop okState.agents.length okState 0 [] task2 (ctx2.getD [])) :=
  C10_success_clears wOk "T" none okOut okState rfl

/-- C5: when the step at index i raises, the loop records the failed-step
index i, performs exactly one inline recovery — resetting the failing agent
to idle and discarding its most recent history entry (the appended failure
record, so the history returns to its pre-step value) — and retries the same
step once with the same task and context.  A successful retry appends the
step result marked recovered and clears the marker; a second raise
propagates upward carrying failedStep = i (exactly two pipeline calls were
made), and a raising execute phase makes the whole run report status
failed. -/
theorem C5_inline_recovery (fuel : Nat) (w : SeqWorkflow) (i : Nat)
    (results : List StepResult) (task : String) (ctx : Ctx)
    (a : Agent) (e : String)
    (ha : w.agents.getD i arbAgent = a)
    (hstep : ¬ w.maxSteps < i + 1)
    (hfail : a.script a.calls = .error e) :
    ((attemptRecovery (execWEH a task ctx).2 task ctx).1.state = .idle ∧
     (attemptRecovery (execWEH a task ctx).2 task ctx).1.history = a.history ∧
     (attemptRecovery (execWEH a task ctx).2 task ctx).1.calls = a.calls + 1) ∧
    (∀ r, a.script (a.calls + 1) = .ok r →
      execLoop (fuel + 1) w i results task ctx =
        execLoop fuel
          { w with
            currentStep := i + 1
            agents := w.agents.set i
              (execWEH (attemptRecovery (execWEH a task ctx).2 task ctx).1
                task ctx).2
            failedStep := none }
          (i + 1) (results ++ [⟨a.name, task, r, i + 1, true⟩]) r
          (ctxSet ctx (a.name ++ "_output") r) ∧
      (execWEH (attemptRecovery (execWEH a task ctx).2 task ctx).1 task ctx).2.calls
        = a.calls + 2 ∧
      (execWEH (attemptRecovery (execWEH a task ctx).2 task ctx).1 task ctx).2.history
        = a.history ++ [⟨task, ctx, some r, none, "completed"⟩]) ∧
    (∀ e2, a.script (a.calls + 1) = .error e2 →
      execLoop (fuel + 1) w i results task ctx =
        .error (e2,
          { w with
            currentStep := i + 1
            agents := w.agents.set i
              (execWEH (attemptRecovery (execWEH a task ctx).2 task ctx).1
                task ctx).2
            failedStep := some i }) ∧
      (execWEH (attemptRecovery (execWEH a task ctx).2 task ctx).1 task ctx).2.calls
        = a.calls + 2) ∧
    (∀ wa ta ca d, (∃ er wE,
        seqExecute (setStateW { wa with currentStep := 0 } .running) ta ca =
          .error (er, wE)) →
      rlookup (runW seqExecute wa ta ca d).1 "status" = some (.s "failed")) := by
  refine ⟨?_, ?_, ?_, ?_⟩
  · simp [execWEH, attemptRecovery, hfail, List.dropLast_concat]
  · intro r hok
    refine ⟨?_, ?_, ?_⟩
    · simp only [execLoop, ha]
      rw [if_neg hstep]
      simp only [execWEH, attemptRecovery, hfail, hok, List.dropLast_concat,
        List.set_set]
    · simp [execWEH, attemptRecovery, hfail, hok, List.dropLast_concat]
    · simp [execWEH, attemptRecovery, hfail, hok, List.dropLast_concat]
  · intro e2 hok2
    refine ⟨?_, ?_⟩
    · simp only [execLoop, ha]
      rw [if_neg hstep]
      simp only [execWEH, attemptRecovery, hfail, hok2, List.dropLast_concat,
        List.set_set]
    · simp [execWEH, attemptRecovery, hfail, hok2, List.dropLast_concat]
  · rintro wa ta ca d ⟨er, wE, herr⟩
    simp only [runW]
    rw [herr]
    rfl

/-- C5 witness: in the recovery scenario wRec the first agent's script
raises on call 0 and succeeds on call 1; the inline recovery leaves the
agent idle with its pre-step history, and the retried call records exactly
two pipeline calls with the recovered step's completed entry. -/
theorem C5_witness :
    ((attemptRecovery (execWEH (wRec.agents.getD 0 arbAgent) "T" []).2 "T" []).1.state
        = .idle ∧
     (attemptRecovery (execWEH (wRec.agents.getD 0 arbAgent) "T" []).2 "T" []).1.history
        = (wRec.agents.getD 0 arbAgent).history ∧
     (attemptRecovery (execWEH (wRec.agents.getD 0 arbAgent) "T" []).2 "T" []).1.calls
        = (wRec.agents.getD 0 arbAgent).calls + 1) ∧
    (execWEH (attemptRecovery (execWEH (wRec.agents.getD 0 arbAgent) "T" []).2
        "T" []).1 "T" []).2.calls = (wRec.agents.getD 0 arbAgent).calls + 2 := by
  have h := C5_inline_recovery 1 wRec 0 [] "T" [] (wRec.agents.getD 0 arbAgent)
    "x" rfl (by decide) rfl
  exact ⟨h.1, (h.2.1 "A0" rfl).2.1⟩

/-- C3 (amended): after a step that completes without raising on its first
attempt, the snapshot {step index, full copy of the result list, copy of the
context} is appended to the checkpoint list (pushCheckpoint); after a step
that succeeds only on the inline-recovery retry the loop continues with the
checkpoint list unchanged — no snapshot is appended for recovered steps. -/
theorem C3_checkpoint_after_steps (fuel : Nat) (w : SeqWorkflow) (i : Nat)
    (results : List StepResult) (task : String) (ctx : Ctx) (a : Agent)
    (ha : w.agents.getD i arbAgent = a)
    (hstep : ¬ w.maxSteps < i + 1) :
    (∀ r, a.script a.calls = .ok r →
      execLoop (fuel + 1) w i results task ctx =
        execLoop fuel
          { w with
            currentStep := i + 1
            agents := w.agents.set i (execWEH a task ctx).2
            checkpoints := pushCheckpoint w.checkpoints
              ⟨i + 1, results ++ [⟨a.name, task, r, i + 1, false⟩],
                ctxSet ctx (a.name ++ "_output") r⟩ }
          (i + 1) (results ++ [⟨a.name, task, r, i + 1, false⟩]) r
          (ctxSet ctx (a.name ++ "_output") r)) ∧
    (∀ e r, a.script a.calls = .error e → a.script (a.calls + 1) = .ok r →
      execLoop (fuel + 1) w i results task ctx =
        execLoop fuel
          { w with
            currentStep := i + 1
            agents := w.agents.set i
              (execWEH (attemptRecovery (execWEH a task ctx).2 task ctx).1
                task ctx).2
            failedStep := none }
          (i + 1) (results ++ [⟨a.name, task, r, i + 1, true⟩]) r
          (ctxSet ctx (a.name ++ "_output") r)) := by
  constructor
  · intro r hok
    simp only [execLoop, ha]
    rw [if_neg hstep]
    simp only [execWEH, hok, saveCheckpointW]
  · intro e r hfail hok
    simp only [execLoop, ha]
    rw [if_neg hstep]
    simp only [execWEH, attemptRecovery, hfail, hok, List.dropLast_concat,
      List.set_set]

/-- C3 (counterexample): in wRec the first step completes without raising via
the inline-recovery retry (its agent ends completed with a completed history
entry and the failure marker moves on to the next step), yet at the moment
the next step raises the checkpoint list is empty: no snapshot was appended
for the recovered step, refuting "including a step that succeeds on the
inline-recovery retry". -/
theorem C3_counterexample :
    wRecAfter.checkpoints = [] ∧
    wRecAfter.agents.map (fun a => a.state) = [.completed, .failed] ∧
    (wRecAfter.agents.getD 0 arbAgent).history.map (fun h => h.state) =
      ["completed"] ∧
    wRecAfter.failedStep = some 1 := by
  decide

/-- C3 witness: the first-attempt-success branch of the amended claim at a
concrete input — in wResume agent a0 succeeds at once and the step-1
snapshot is pushed. -/
theorem C3_witness :
    execLoop 3 wResume 0 [] "T" [] =
      execLoop 2
        { wResume with
          currentStep := 1
          agents := wResume.agents.set 0
            (execWEH (wResume.agents.getD 0 arbAgent) "T" []).2
          checkpoints := pushCheckpoint wResume.checkpoints
            ⟨1, [⟨"a0", "T", "A0", 1, false⟩], ctxSet [] ("a0" ++ "_output") "A0"⟩ }
        1 [⟨"a0", "T", "A0", 1, false⟩] "A0" (ctxSet [] ("a0" ++ "_output") "A0") :=
  (C3_checkpoint_after_steps 2 wResume 0 [] "T" []
    (wResume.agents.getD 0 arbAgent) rfl (by decide)).1 "A0" rfl

/-- C4 (amended): invoked while the failed-step marker k is set and at least
one checkpoint exists (with k > 0 and a nonempty restored result list, as
arises from any checkpointed failure), execute restores the result list and
context from the most recent checkpoint, takes the last restored output as
the current task, and resumes the loop at index k — the recorded failed
step — so the previously-failing step is re-attempted and earlier steps are
not replayed.  The restored state is the most recent checkpointed state,
which can predate the last success (inline-recovered steps are not
checkpointed), so k can exceed the most recent checkpoint's step field. -/
theorem C4_resume_at_failed_marker (w : SeqWorkflow) (task : String)
    (ctx? : Option Ctx) (k : Nat)
    (hk : w.failedStep = some k) (hkpos : 0 < k)
    (hcp : w.checkpoints ≠ [])
    (hne : w.agents.isEmpty = false)
    (hres : (w.checkpoints.getLastD ⟨0, [], []⟩).results ≠ []) :
    resumeStart w = k ∧
    seqExecute w task ctx? =
      execLoop (w.agents.length - k) w k
        (w.checkpoints.getLastD ⟨0, [], []⟩).results
        ((w.checkpoints.getLastD ⟨0, [], []⟩).results.getLastD
          ⟨"", "", "", 0, false⟩).output
        (w.checkpoints.getLastD ⟨0, [], []⟩).ctx := by
  have h1 : resumeStart w = k := by
    simp [resumeStart, hk, hcp]
  refine ⟨h1, ?_⟩
  simp only [seqExecute, hne, Bool.false_eq_true, if_false, resumeStart, hk,
    Option.isSome_some, true_and, Option.getD_some]
  simp only [if_pos hcp]
  rw [if_pos ⟨hkpos, hcp⟩, if_pos ⟨hkpos, hcp, hres⟩]

/-- C4 (counterexample): in wResume the run fails at index 2 after step 2
succeeded only through inline recovery (not checkpointed); on the resumed
invocation the start index is the failed-step marker 2, while the most
recent checkpoint's step field is 1 and its restored result list holds only
step 1 — refuting "resumes at that checkpoint's step index ... from the
end-of-last-success state" (both agents 0 and 1 had completed). -/
theorem C4_counterexample :
    wResumeAfter.failedStep = some 2 ∧
    resumeStart wResumeAfter = 2 ∧
    wResumeAfter.checkpoints.map (fun c => c.step) = [1] ∧
    (wResumeAfter.checkpoints.getLastD ⟨0, [], []⟩).step = 1 ∧
    ¬ resumeStart wResumeAfter =
        (wResumeAfter.checkpoints.getLastD ⟨0, [], []⟩).step ∧
    (wResumeAfter.checkpoints.getLastD ⟨0, [], []⟩).results.map
      (fun r => r.step) = [1] ∧
    wResumeAfter.agents.map (fun a => a.state) =
      [.completed, .completed, .failed] := by
  decide

/-- C4 witness: the amended resume behaviour at the concrete post-failure
state of wResume — restore from the step-1 checkpoint and resume at index 2. -/
theorem C4_witness :
    resumeStart wResumeAfter = 2 ∧
    seqExecute wResumeAfter "T2" none =
      execLoop (wResumeAfter.agents.length - 2) wResumeAfter 2
        (wResumeAfter.checkpoints.getLastD ⟨0, [], []⟩).results
        ((wResumeAfter.checkpoints.getLastD ⟨0, [], []⟩).results.getLastD
          ⟨"", "", "", 0, false⟩).output
        (wResumeAfter.checkpoints.getLastD ⟨0, [], []⟩).ctx :=
  C4_resume_at_failed_marker wResumeAfter "T2" none 2 (by decide) (by decide)
    (by decide) (by decide) (by decide)

/-- A pattern begins every list it prefixes. -/
theorem beginsWith_append_self (p s : List Char) :
    beginsWith p (p ++ s) = true := by
  induction p with
  | nil => simp [beginsWith]
  | cons c cs ih => simp [beginsWith, ih]

/-- The Python substring test finds a pattern wherever it occurs. -/
theorem containsSub_parts (x pat y : List Char) :
    containsSub (x ++ (pat ++ y)) pat = true := by
  induction x with
  | nil =>
    cases pat with
    | nil =>
      cases y with
      | nil => rfl
      | cons c cs => simp [containsSub, beginsWith]
    | cons p ps =>
      simp only [List.nil_append, containsSub, List.append_eq]
      rw [← List.cons_append, beginsWith_append_self (p :: ps) y]
      simp
  | cons c cs ih =>
    simp only [List.cons_append, containsSub, List.append_eq]
    rw [ih]
    simp

/-- C9: whenever the selection response contains the phrase "Agent: None" in
any letter case (a substring whose lower-casing is "agent: none"),
select_agent returns no agent — the check precedes any name matching — and
the router loop facing such a response terminates the run normally,
returning the aggregation of the steps already executed. -/
theorem C9_none_selection (avail : List (String × Agent))
    (pre mid post : List Char) (content : String)
    (hc : content.data = pre ++ mid ++ post)
    (hmid : toLowerL mid = "agent: none".data)
    (mr : Nat) (selResp : Nat → String) (s : String) (rest : List String)
    (i : Nat) (results : List RouterStep) (ctx : Ctx)
    (hresp : selResp i = content) :
    selectAgent avail content = none ∧
    routerLoop mr selResp avail (s :: rest) i results ctx =
      aggregateResults results := by
  have hsub : containsSub (toLowerL content.data) ("agent: none".data) = true := by
    rw [hc]
    simp only [toLowerL, List.map_append, List.append_assoc]
    rw [show List.map Char.toLower mid = "agent: none".data from hmid]
    exact containsSub_parts _ _ _
  have hsel : selectAgent avail content = none := by
    simp [selectAgent, hsub]
  refine ⟨hsel, ?_⟩
  simp only [routerLoop, hresp, hsel]

/-- C9 witness: a response reading "Agent: NONE" yields no agent and the
loop over a remaining subtask returns the aggregation of the zero steps
executed so far. -/
theorem C9_witness :
    selectAgent [("TaskAgent1", agTask1)] "Agent: NONE" = none ∧
    routerLoop 3 (fun _ => "Agent: NONE") [("TaskAgent1", agTask1)]
      ["subtask one"] 0 [] [] = aggregateResults [] :=
  C9_none_selection [("TaskAgent1", agTask1)] [] ("Agent: NONE".data) []
    "Agent: NONE" (by decide) (by decide) 3 (fun _ => "Agent: NONE")
    "subtask one" [] 0 [] [] rfl

/-! Support lemmas for the placeholder-substitution claim: fuel invariance
and canonical unfolding equations for the fuelled scans, and arithmetic of
the decimal rendering. -/

/-- Any sufficient fuel computes the same decimal rendering. -/
theorem natReprF_inv :
    ∀ (f : Nat) (n : Nat) (f' : Nat), n < f → n < f' →
      natReprF f n = natReprF f' n := by
  intro f
  induction f with
  | zero => intro n f' hf _; omega
  | succ f ih =>
    intro n f' hf hf'
    obtain ⟨g, rfl⟩ : ∃ g, f' = g + 1 := ⟨f' - 1, by omega⟩
    simp only [natReprF]
    by_cases h10 : n < 10
    · rw [if_pos h10, if_pos h10]
    · rw [if_neg h10, if_neg h10]
      have hdiv : n / 10 < n := Nat.div_lt_self (by omega) (by omega)
      rw [ih (n / 10) g (by omega) (by omega)]

/-- The recursive characterisation of the decimal rendering. -/
theorem natRepr_unfold (n : Nat) :
    natRepr n =
      if n < 10 then [digitChar n]
      else natRepr (n / 10) ++ [digitChar (n % 10)] := by
  show natReprF (n + 1) n = _
  simp only [natReprF]
  by_cases h10 : n < 10
  · rw [if_pos h10, if_pos h10]
  · rw [if_neg h10, if_neg h10]
    have hdiv : n / 10 < n := Nat.div_lt_self (by omega) (by omega)
    rw [natReprF_inv n (n / 10) (n / 10 + 1) (by omega) (by omega)]
    rfl

/-- Digit characters are decimal digits. -/
theorem digitChar_isDigit (m : Nat) (h : m < 10) :
    (digitChar m).isDigit = true := by
  interval_cases m <;> decide

/-- The code of a digit character. -/
theorem digitChar_toNat (m : Nat) (h : m < 10) :
    (digitChar m).toNat = 48 + m := by
  interval_cases m <;> decide

/-- Every character of a decimal rendering is a digit. -/
theorem natRepr_digits (n : Nat) : ∀ c ∈ natRepr n, c.isDigit = true := by
  induction n using Nat.strong_induction_on with
  | _ n ih =>
    rw [natRepr_unfold]
    by_cases h10 : n < 10
    · rw [if_pos h10]
      intro c hc
      simp only [List.mem_singleton] at hc
      subst hc
      exact digitChar_isDigit n h10
    · rw [if_neg h10]
      intro c hc
      rcases List.mem_append.mp hc with h | h
      · exact ih (n / 10) (Nat.div_lt_self (by omega) (by omega)) c h
      · simp only [List.mem_singleton] at h
        subst h
        exact digitChar_isDigit _ (Nat.mod_lt _ (by omega))

/-- Parsing a string extended by one digit character. -/
theorem digitsToNat_append (xs : List Char) (c : Char) :
    digitsToNat (xs ++ [c]) = digitsToNat xs * 10 + (c.toNat - 48) := by
  simp [digitsToNat, List.foldl_append]

/-- int(str(n)) = n: parsing the decimal rendering recovers the number. -/
theorem natRepr_roundtrip (n : Nat) : digitsToNat (natRepr n) = n := by
  induction n using Nat.strong_induction_on with
  | _ n ih =>
    rw [natRepr_unfold]
    by_cases h10 : n < 10
    · rw [if_pos h10]
      show digitsToNat ([] ++ [digitChar n]) = n
      rw [digitsToNat_append, digitChar_toNat n h10]
      simp [digitsToNat]
    · rw [if_neg h10, digitsToNat_append,
        ih (n / 10) (Nat.div_lt_self (by omega) (by omega)),
        digitChar_toNat _ (Nat.mod_lt _ (by omega))]
      omega

/-- The decimal rendering is injective. -/
theorem natRepr_inj {n m : Nat} (h : natRepr n = natRepr m) : n = m := by
  rw [← natRepr_roundtrip n, h, natRepr_roundtrip]

/-- The decimal rendering is never empty. -/
theorem natRepr_ne_nil (n : Nat) : natRepr n ≠ [] := by
  rw [natRepr_unfold]
  split <;> simp

/-- Decimal renderings contain no opening brace. -/
theorem natRepr_braceFree (n : Nat) : braceFree (natRepr n) = true := by
  simp only [braceFree, List.all_eq_true]
  intro c hc
  have hd := natRepr_digits n c hc
  simp only [bne_iff_ne, ne_eq]
  intro h
  subst h
  exact absurd hd (by decide)

/-- Matching a fixed pattern prefix on both sides. -/
theorem beginsWith_append_same (p a b : List Char) :
    beginsWith (p ++ a) (p ++ b) = beginsWith a b := by
  induction p with
  | nil => rfl
  | cons c cs ih => simp [beginsWith, ih]

/-- Two different digit blocks followed by an underscore never match as
prefix, whatever follows the underscores. -/
theorem digit_blocks_mismatch :
    ∀ (x y t1 t2 : List Char),
      (∀ c ∈ x, c.isDigit = true) → (∀ c ∈ y, c.isDigit = true) → x ≠ y →
      beginsWith (x ++ '_' :: t1) (y ++ '_' :: t2) = false := by
  intro x
  induction x with
  | nil =>
    intro y t1 t2 _hx hy hne
    cases y with
    | nil => exact absurd rfl hne
    | cons d ys =>
      have hd : d.isDigit = true := hy d (by simp)
      have hne' : ¬ ('_' = d) := by
        intro h
        rw [← h] at hd
        exact absurd hd (by decide)
      simp [beginsWith, hne']
  | cons c xs ih =>
    intro y t1 t2 hx hy hne
    cases y with
    | nil =>
      have hc : c.isDigit = true := hx c (by simp)
      have hne' : ¬ (c = '_') := by
        intro h
        rw [h] at hc
        exact absurd hc (by decide)
      simp [beginsWith, hne']
    | cons d ys =>
      by_cases hcd : c = d
      · subst hcd
        have hne' : xs ≠ ys := fun h => hne (by rw [h])
        simp only [List.cons_append, beginsWith, List.append_eq]
        rw [ih ys t1 t2 (fun a ha => hx a (by simp [ha]))
          (fun a ha => hy a (by simp [ha])) hne']
        simp
      · simp [beginsWith, hcd]

/-- The canonical token of one step number is never a prefix of text
starting with the canonical token of a different step number. -/
theorem tok_ne_prefix {n m : Nat} (hnm : n ≠ m) (rest : List Char) :
    beginsWith (tokChars n) (tokChars m ++ rest) = false := by
  have h1 : tokChars n =
      "\x7bstep_".data ++ (natRepr n ++ '_' :: "output\x7d".data) := by
    rw [tokChars, List.append_assoc]
  have h2 : tokChars m ++ rest =
      "\x7bstep_".data ++ (natRepr m ++ '_' :: ("output\x7d".data ++ rest)) := by
    rw [tokChars, List.append_assoc, List.append_assoc]
    rfl
  rw [h1, h2, beginsWith_append_same]
  exact digit_blocks_mismatch _ _ _ _ (natRepr_digits n) (natRepr_digits m)
    (fun h => hnm (natRepr_inj h))

/-- Any sufficient fuel computes the same replacement scan. -/
theorem replaceAllF_inv (old new : List Char) :
    ∀ (f : Nat) (s : List Char) (f' : Nat), s.length ≤ f → s.length ≤ f' →
      replaceAllF old new f s = replaceAllF old new f' s := by
  intro f
  induction f with
  | zero =>
    intro s f' hf _hf'
    have hs : s = [] := List.length_eq_zero.mp (by omega)
    subst hs
    cases f' <;> rfl
  | succ f ih =>
    intro s f' hf hf'
    cases s with
    | nil => cases f' <;> rfl
    | cons c cs =>
      obtain ⟨g, rfl⟩ : ∃ g, f' = g + 1 :=
        ⟨f' - 1, by simp only [List.length_cons] at hf'; omega⟩
      simp only [replaceAllF]
      by_cases hb : beginsWith old (c :: cs) ∧ old ≠ []
      · rw [if_pos hb, if_pos hb]
        have hop : 0 < old.length := List.length_pos.mpr hb.2
        congr 1
        apply ih
        · simp only [List.length_drop, List.length_cons] at *
          omega
        · simp only [List.length_drop, List.length_cons] at *
          omega
      · rw [if_neg hb, if_neg hb]
        congr 1
        apply ih
        · simp only [List.length_cons] at hf
          omega
        · simp only [List.length_cons] at hf'
          omega

/-- str.replace on the empty string. -/
theorem replaceAll_nil (old new : List Char) : replaceAll [] old new = [] := rfl

/-- The recursive characterisation of str.replace. -/
theorem replaceAll_cons (c : Char) (cs old new : List Char) :
    replaceAll (c :: cs) old new =
      if beginsWith old (c :: cs) ∧ old ≠ [] then
        new ++ replaceAll ((c :: cs).drop old.length) old new
      else c :: replaceAll cs old new := by
  show replaceAllF old new (c :: cs).length (c :: cs) = _
  simp only [List.length_cons, replaceAllF]
  by_cases hb : beginsWith old (c :: cs) ∧ old ≠ []
  · rw [if_pos hb, if_pos hb]
    have hop : 0 < old.length := List.length_pos.mpr hb.2
    congr 1
    apply replaceAllF_inv
    · simp only [List.length_drop, List.length_cons]
      omega
    · simp only [List.length_drop, List.length_cons]
      omega
  · rw [if_neg hb, if_neg hb]
    rfl

/-- Any sufficient fuel computes the same findall scan. -/
theorem findTokensF_inv :
    ∀ (f : Nat) (s : List Char) (f' : Nat), s.length ≤ f → s.length ≤ f' →
      findTokensF f s = findTokensF f' s := by
  intro f
  induction f with
  | zero =>
    intro s f' hf _hf'
    have hs : s = [] := List.length_eq_zero.mp (by omega)
    subst hs
    cases f' <;> rfl
  | succ f ih =>
    intro s f' hf hf'
    cases s with
    | nil => cases f' <;> rfl
    | cons c cs =>
      obtain ⟨g, rfl⟩ : ∃ g, f' = g + 1 :=
        ⟨f' - 1, by simp only [List.length_cons] at hf'; omega⟩
      simp only [findTokensF]
      cases hm : matchTok (c :: cs) with
      | some p =>
        obtain ⟨ds, rest⟩ := p
        have hlt := matchTok_some_length hm
        dsimp only
        congr 1
        apply ih
        · simp only [List.length_cons] at hf hlt ⊢
          omega
        · simp only [List.length_cons] at hf' hlt ⊢
          omega
      | none =>
        dsimp only
        apply ih
        · simp only [List.length_cons] at hf
          omega
        · simp only [List.length_cons] at hf'
          omega

/-- re.findall on the empty string. -/
theorem findTokens_nil : findTokens [] = [] := rfl

/-- The recursive characterisation of the findall scan. -/
theorem findTokens_cons (c : Char) (cs : List Char) :
    findTokens (c :: cs) =
      match matchTok (c :: cs) with
      | some (ds, rest) => ds :: findTokens rest
      | none => findTokens cs := by
  show findTokensF (c :: cs).length (c :: cs) = _
  simp only [List.length_cons, findTokensF]
  cases hm : matchTok (c :: cs) with
  | some p =>
    obtain ⟨ds, rest⟩ := p
    have hlt := matchTok_some_length hm
    dsimp only
    congr 1
    apply findTokensF_inv
    · simp only [List.length_cons] at hlt ⊢
      omega
    · omega
  | none =>
    dsimp only
    rfl

/-- Any sufficient fuel computes the same spec-side resolution. -/
theorem specResolveF_inv (results : List RouterStep) :
    ∀ (f : Nat) (s : List Char) (f' : Nat), s.length ≤ f → s.length ≤ f' →
      specResolveF results f s = specResolveF results f' s := by
  intro f
  induction f with
  | zero =>
    intro s f' hf _hf'
    have hs : s = [] := List.length_eq_zero.mp (by omega)
    subst hs
    cases f' <;> rfl
  | succ f ih =>
    intro s f' hf hf'
    cases s with
    | nil => cases f' <;> rfl
    | cons c cs =>
      obtain ⟨g, rfl⟩ : ∃ g, f' = g + 1 :=
        ⟨f' - 1, by simp only [List.length_cons] at hf'; omega⟩
      simp only [specResolveF]
      cases hm : matchTok (c :: cs) with
      | some p =>
        obtain ⟨ds, rest⟩ := p
        have hlt := matchTok_some_length hm
        dsimp only
        split
        · congr 1
          apply ih
          · simp only [List.length_cons] at hf hlt ⊢
            omega
          · simp only [List.length_cons] at hf' hlt ⊢
            omega
        · congr 1
          apply ih
          · simp only [List.length_cons] at hf hlt ⊢
            omega
          · simp only [List.length_cons] at hf' hlt ⊢
            omega
      | none =>
        dsimp only
        congr 1
        apply ih
        · simp only [List.length_cons] at hf
          omega
        · simp only [List.length_cons] at hf'
          omega

/-- The spec-side resolution of the empty string. -/
theorem specResolve_nil (results : List RouterStep) :
    specResolve results [] = [] := rfl

/-- The recursive characterisation of the spec-side resolution. -/
theorem specResolve_cons (results : List RouterStep) (c : Char) (cs : List Char) :
    specResolve results (c :: cs) =
      match matchTok (c :: cs) with
      | some (ds, rest) =>
          if 1 ≤ digitsToNat ds ∧ digitsToNat ds ≤ results.length then
            ((results.getD (digitsToNat ds - 1) ⟨"", "", ""⟩).result.data) ++
              specResolve results rest
          else
            ("\x7bstep_".data ++ ds ++ "_output\x7d".data) ++
              specResolve results rest
      | none => c :: specResolve results cs := by
  show specResolveF results (c :: cs).length (c :: cs) = _
  simp only [List.length_cons, specResolveF]
  cases hm : matchTok (c :: cs) with
  | some p =>
    obtain ⟨ds, rest⟩ := p
    have hlt := matchTok_some_length hm
    dsimp only
    split
    · congr 1
      apply specResolveF_inv
      · simp only [List.length_cons] at hlt ⊢
        omega
      · omega
    · congr 1
      apply specResolveF_inv
      · simp only [List.length_cons] at hlt ⊢
        omega
      · omega
  | none =>
    dsimp only
    rfl

/-- No token match starts at a character other than the opening brace. -/
theorem matchTok_cons_ne {c : Char} (l : List Char) (hc : ¬ c = '\x7b') :
    matchTok (c :: l) = none := by
  have hb : beginsWith ("\x7bstep_".data) (c :: l) = false := by
    show (decide ('\x7b' = c) && beginsWith ("step_".data) l) = false
    rw [decide_eq_false (fun h => hc h.symm)]
    rfl
  simp [matchTok, hb]

/-- The digit prefix of a digit block followed by an underscore. -/
theorem takeWhile_digits (x t : List Char) (hx : ∀ c ∈ x, c.isDigit = true) :
    List.takeWhile Char.isDigit (x ++ '_' :: t) = x := by
  induction x with
  | nil =>
    rw [List.nil_append]
    simp [List.takeWhile_cons]
  | cons c cs ih =>
    have hc := hx c (by simp)
    rw [List.cons_append]
    simp [List.takeWhile_cons, hc, ih (fun d hd => hx d (by simp [hd]))]

/-- A token match at the start of a canonical token consumes exactly the
token and captures its digit string. -/
theorem matchTok_tok (n : Nat) (rest : List Char) :
    matchTok (tokChars n ++ rest) = some (natRepr n, rest) := by
  have e1 : tokChars n ++ rest =
      "\x7bstep_".data ++ (natRepr n ++ ("_output\x7d".data ++ rest)) := by
    rw [tokChars, List.append_assoc, List.append_assoc]
  rw [e1]
  simp only [matchTok]
  rw [if_pos (beginsWith_append_self _ _)]
  have e2 : ("\x7bstep_".data ++ (natRepr n ++ ("_output\x7d".data ++ rest))).drop 6
      = natRepr n ++ ("_output\x7d".data ++ rest) := by
    simp
  rw [e2]
  have e3 : List.takeWhile Char.isDigit (natRepr n ++ ("_output\x7d".data ++ rest))
      = natRepr n := by
    have : natRepr n ++ ("_output\x7d".data ++ rest) =
        natRepr n ++ '_' :: ("output\x7d".data ++ rest) := rfl
    rw [this]
    exact takeWhile_digits _ _ (natRepr_digits n)
  rw [e3]
  rw [if_neg (by simpa using natRepr_ne_nil n)]
  have e4 : (natRepr n ++ ("_output\x7d".data ++ rest)).drop (natRepr n).length
      = "_output\x7d".data ++ rest := List.drop_left _ _
  rw [e4]
  rw [if_pos (beginsWith_append_self _ _)]
  have e5 : (natRepr n ++ ("_output\x7d".data ++ rest)).drop ((natRepr n).length + 8)
      = rest := by
    have ha : natRepr n ++ ("_output\x7d".data ++ rest) =
        (natRepr n ++ "_output\x7d".data) ++ rest := by
      rw [List.append_assoc]
    have hl : (natRepr n ++ "_output\x7d".data).length = (natRepr n).length + 8 := by
      simp
    rw [ha, ← hl]
    exact List.drop_left _ _
  rw [e5]

/-- A canonical token in head-cons form, with anything appended. -/
theorem tokChars_cons_append (m : Nat) (y : List Char) :
    tokChars m ++ y =
      '\x7b' :: (("step_".data ++ natRepr m ++ "_output\x7d".data) ++ y) := by
  rw [tokChars]
  rfl

/-- A canonical token is nonempty. -/
theorem tokChars_ne_nil (n : Nat) : tokChars n ≠ [] := by
  intro h
  have := congrArg List.length h
  rw [tokChars] at this
  simp at this

/-- The tail of a canonical token (everything after the opening brace)
contains no opening brace. -/
theorem tokTail_braceFree (m : Nat) :
    braceFree ("step_".data ++ natRepr m ++ "_output\x7d".data) = true := by
  simp only [braceFree, List.all_append, Bool.and_eq_true]
  refine ⟨⟨by decide, ?_⟩, by decide⟩
  exact natRepr_braceFree m

/-- str.replace with a token pattern passes over a brace-free segment. -/
theorem replaceAll_seg_prepend (d rest new : List Char) (n : Nat)
    (hd : braceFree d = true) :
    replaceAll (d ++ rest) (tokChars n) new =
      d ++ replaceAll rest (tokChars n) new := by
  induction d with
  | nil => simp
  | cons c cs ih =>
    have hc : ¬ ('\x7b' = c) := by
      have hmem := (List.all_eq_true.mp hd) c (by simp)
      simp only [bne_iff_ne, ne_eq] at hmem
      exact fun h => hmem h.symm
    have hd' : braceFree cs = true := by
      simp only [braceFree, List.all_cons, Bool.and_eq_true] at hd
      exact hd.2
    rw [List.cons_append, replaceAll_cons, if_neg ?_]
    · rw [ih hd', List.cons_append]
    · intro hcontra
      have hb := hcontra.1
      rw [show tokChars n =
        '\x7b' :: (("step_".data ++ natRepr n ++ "_output\x7d".data)) from
        by rw [tokChars]; rfl] at hb
      simp only [beginsWith, Bool.and_eq_true, decide_eq_true_eq] at hb
      exact hc hb.1

/-- str.replace rewrites a leading occurrence of its own token. -/
theorem replaceAll_tok_self (n : Nat) (rest new : List Char) :
    replaceAll (tokChars n ++ rest) (tokChars n) new =
      new ++ replaceAll rest (tokChars n) new := by
  have hcons := tokChars_cons_append n rest
  have hb : beginsWith (tokChars n)
      ('\x7b' :: (("step_".data ++ natRepr n ++ "_output\x7d".data) ++ rest)) = true := by
    rw [← hcons]
    exact beginsWith_append_self _ _
  rw [hcons, replaceAll_cons, if_pos ⟨hb, tokChars_ne_nil n⟩, ← hcons,
    List.drop_left]

/-- str.replace passes over a leading occurrence of a different token. -/
theorem replaceAll_tok_other {n m : Nat} (hnm : n ≠ m) (rest new : List Char) :
    replaceAll (tokChars m ++ rest) (tokChars n) new =
      tokChars m ++ replaceAll rest (tokChars n) new := by
  have hcons := tokChars_cons_append m rest
  have hb : ¬ (beginsWith (tokChars n)
      ('\x7b' :: (("step_".data ++ natRepr m ++ "_output\x7d".data) ++ rest)) = true
      ∧ tokChars n ≠ []) := by
    intro hcontra
    have h1 := hcontra.1
    rw [← hcons, tok_ne_prefix hnm rest] at h1
    exact absurd h1 (by simp)
  rw [hcons, replaceAll_cons, if_neg hb,
    replaceAll_seg_prepend _ _ _ _ (tokTail_braceFree m),
    tokChars_cons_append m (replaceAll rest (tokChars n) new)]

/-- The findall scan passes over a brace-free segment. -/
theorem findTokens_seg_prepend (d t : List Char) (hd : braceFree d = true) :
    findTokens (d ++ t) = findTokens t := by
  induction d with
  | nil => rw [List.nil_append]
  | cons c cs ih =>
    have hc : ¬ c = '\x7b' := by
      have hmem := (List.all_eq_true.mp hd) c (by simp)
      simpa [bne_iff_ne] using hmem
    have hd' : braceFree cs = true := by
      simp only [braceFree, List.all_cons, Bool.and_eq_true] at hd
      exact hd.2
    rw [List.cons_append, findTokens_cons, matchTok_cons_ne _ hc]
    exact ih hd'

/-- The spec-side resolution passes over a brace-free segment verbatim. -/
theorem specResolve_seg_prepend (results : List RouterStep) (d t : List Char)
    (hd : braceFree d = true) :
    specResolve results (d ++ t) = d ++ specResolve results t := by
  induction d with
  | nil => rw [List.nil_append, List.nil_append]
  | cons c cs ih =>
    have hc : ¬ c = '\x7b' := by
      have hmem := (List.all_eq_true.mp hd) c (by simp)
      simpa [bne_iff_ne] using hmem
    have hd' : braceFree cs = true := by
      simp only [braceFree, List.all_cons, Bool.and_eq_true] at hd
      exact hd.2
    rw [List.cons_append, specResolve_cons, matchTok_cons_ne _ hc]
    show c :: specResolve results (cs ++ t) = (c :: cs) ++ specResolve results t
    rw [ih hd', List.cons_append]

/-- The findall scan of a well-formed component text captures exactly the
token digit strings in order. -/
theorem findTokens_flatten :
    ∀ (comps : List Comp), compWF comps = true →
      findTokens (flattenC comps) = (tokensOfC comps).map natRepr := by
  intro comps
  induction comps with
  | nil => intro _; rfl
  | cons cComp rest ih =>
    intro hwf
    have hwfr : compWF rest = true := by
      simp only [compWF, List.all_cons, Bool.and_eq_true] at hwf
      exact hwf.2
    cases cComp with
    | seg d =>
      have hd : braceFree d = true := by
        simp only [compWF, List.all_cons, Bool.and_eq_true] at hwf
        exact hwf.1
      show findTokens (d ++ flattenC rest) = _
      rw [findTokens_seg_prepend d _ hd, ih hwfr]
      rfl
    | tk n =>
      show findTokens (tokChars n ++ flattenC rest) = _
      rw [tokChars_cons_append n (flattenC rest), findTokens_cons,
        ← tokChars_cons_append n (flattenC rest), matchTok_tok n (flattenC rest)]
      show natRepr n :: findTokens (flattenC rest) = _
      rw [ih hwfr]
      rfl

/-- The spec-side resolution of a well-formed component text substitutes
each token component simultaneously. -/
theorem specResolve_flatten :
    ∀ (comps : List Comp) (results : List RouterStep), compWF comps = true →
      specResolve results (flattenC comps) =
        flattenC (substC results comps) := by
  intro comps
  induction comps with
  | nil => intro results _; rfl
  | cons cComp rest ih =>
    intro results hwf
    have hwfr : compWF rest = true := by
      simp only [compWF, List.all_cons, Bool.and_eq_true] at hwf
      exact hwf.2
    cases cComp with
    | seg d =>
      have hd : braceFree d = true := by
        simp only [compWF, List.all_cons, Bool.and_eq_true] at hwf
        exact hwf.1
      show specResolve results (d ++ flattenC rest) = _
      rw [specResolve_seg_prepend results d _ hd, ih results hwfr]
      rfl
    | tk n =>
      show specResolve results (tokChars n ++ flattenC rest) = _
      rw [tokChars_cons_append n (flattenC rest), specResolve_cons,
        ← tokChars_cons_append n (flattenC rest), matchTok_tok n (flattenC rest)]
      dsimp only
      rw [natRepr_roundtrip n]
      by_cases hin : 1 ≤ n ∧ n ≤ results.length
      · rw [if_pos hin]
        show _ = flattenC (substC results (.tk n :: rest))
        simp only [substC, List.map_cons]
        rw [if_pos hin]
        show _ = (results.getD (n - 1) ⟨"", "", ""⟩).result.data ++
          flattenC (List.map _ rest)
        rw [ih results hwfr]
        rfl
      · rw [if_neg hin]
        show _ = flattenC (substC results (.tk n :: rest))
        simp only [substC, List.map_cons]
        rw [if_neg hin]
        show ("\x7bstep_".data ++ natRepr n ++ "_output\x7d".data) ++
            specResolve results (flattenC rest) =
          tokChars n ++ flattenC (List.map _ rest)
        rw [ih results hwfr, tokChars]
        rfl

/-- One str.replace of a token over a well-formed component text replaces
exactly the components carrying that token. -/
theorem replaceAll_flatten :
    ∀ (comps : List Comp) (n : Nat) (r : List Char), compWF comps = true →
      replaceAll (flattenC comps) (tokChars n) r =
        flattenC (replC comps n r) := by
  intro comps
  induction comps with
  | nil => intro n r _; rfl
  | cons cComp rest ih =>
    intro n r hwf
    have hwfr : compWF rest = true := by
      simp only [compWF, List.all_cons, Bool.and_eq_true] at hwf
      exact hwf.2
    cases cComp with
    | seg d =>
      have hd : braceFree d = true := by
        simp only [compWF, List.all_cons, Bool.and_eq_true] at hwf
        exact hwf.1
      show replaceAll (d ++ flattenC rest) (tokChars n) r = _
      rw [replaceAll_seg_prepend _ _ _ _ hd, ih n r hwfr]
      rfl
    | tk m =>
      by_cases hmn : m = n
      · subst hmn
        show replaceAll (tokChars m ++ flattenC rest) (tokChars m) r = _
        rw [replaceAll_tok_self, ih m r hwfr]
        simp only [replC, List.map_cons, if_pos rfl]
        rfl
      · show replaceAll (tokChars m ++ flattenC rest) (tokChars n) r = _
        rw [replaceAll_tok_other (fun h => hmn h.symm), ih n r hwfr]
        simp only [replC, List.map_cons, if_neg hmn]
        rfl

/-- Token replacement by a brace-free text preserves well-formedness. -/
theorem compWF_replC (comps : List Comp) (n : Nat) (r : List Char)
    (hwf : compWF comps = true) (hr : braceFree r = true) :
    compWF (replC comps n r) = true := by
  induction comps with
  | nil => rfl
  | cons c rest ih =>
    simp only [compWF, replC, List.map_cons, List.all_cons,
      Bool.and_eq_true] at hwf ⊢
    refine ⟨?_, ih hwf.2⟩
    cases c with
    | seg d => exact hwf.1
    | tk m =>
      by_cases hmn : m = n
      · simp only [if_pos hmn]
        exact hr
      · simp only [if_neg hmn]

/-- An element fetched with getD inside the bound is brace-free when every
recorded result is. -/
theorem result_braceFree (results : List RouterStep)
    (hr : ∀ st ∈ results, braceFree st.result.data = true) (i : Nat)
    (hi : i < results.length) :
    braceFree ((results.getD i ⟨"", "", ""⟩).result.data) = true := by
  have h1 : results.getD i ⟨"", "", ""⟩ = results.get ⟨i, hi⟩ := by
    show (results.get? i).getD _ = _
    rw [List.get?_eq_get hi]
    rfl
  rw [h1]
  exact hr _ (List.get_mem results i hi)

/-- One pass of the substitution loop, at the component level. -/
theorem substStep_flatten (results : List RouterStep) (comps : List Comp)
    (k : Nat) (hwf : compWF comps = true) :
    substStep results (flattenC comps) (natRepr k) =
      flattenC (replNum results comps k) := by
  simp only [substStep, replNum, natRepr_roundtrip]
  by_cases hin : 1 ≤ k ∧ k ≤ results.length
  · rw [if_pos hin, if_pos hin]
    exact replaceAll_flatten comps k _ hwf
  · rw [if_neg hin, if_neg hin]

/-- One pass of the substitution loop preserves well-formedness. -/
theorem compWF_replNum (results : List RouterStep) (comps : List Comp)
    (k : Nat) (hwf : compWF comps = true)
    (hr : ∀ st ∈ results, braceFree st.result.data = true) :
    compWF (replNum results comps k) = true := by
  simp only [replNum]
  by_cases hin : 1 ≤ k ∧ k ≤ results.length
  · rw [if_pos hin]
    exact compWF_replC comps k _ hwf
      (result_braceFree results hr (k - 1) (by omega))
  · rw [if_neg hin]
    exact hwf

/-- The substitution loop over a token-number list, at the component level. -/
theorem foldl_substStep (results : List RouterStep)
    (hr : ∀ st ∈ results, braceFree st.result.data = true) :
    ∀ (ms : List Nat) (comps : List Comp), compWF comps = true →
      List.foldl (substStep results) (flattenC comps) (ms.map natRepr) =
        flattenC (List.foldl (replNum results) comps ms) := by
  intro ms
  induction ms with
  | nil => intro comps _; rfl
  | cons m ms ih =>
    intro comps hwf
    simp only [List.map_cons, List.foldl_cons]
    rw [substStep_flatten results comps m hwf]
    exact ih _ (compWF_replNum results comps m hwf hr)

/-- Folding the per-number replacement equals the replacement by membership
in the processed list. -/
theorem foldl_replNum_eq_multi (results : List RouterStep) :
    ∀ (ms : List Nat) (comps : List Comp),
      List.foldl (replNum results) comps ms = multiRepl results ms comps := by
  intro ms
  induction ms with
  | nil =>
    intro comps
    show comps = multiRepl results [] comps
    simp only [multiRepl]
    have hid : ∀ c : Comp, (fun c => match c with
        | Comp.tk m =>
            if m ∈ ([] : List Nat) ∧ 1 ≤ m ∧ m ≤ results.length then
              Comp.seg ((results.getD (m - 1) ⟨"", "", ""⟩).result.data)
            else Comp.tk m
        | Comp.seg d => Comp.seg d) c = id c := by
      intro c
      cases c with
      | seg d => rfl
      | tk m => simp
    rw [List.map_congr_left (fun a _ => hid a), List.map_id]
  | cons m ms ih =>
    intro comps
    rw [List.foldl_cons, ih]
    simp only [multiRepl, replNum]
    by_cases hin : 1 ≤ m ∧ m ≤ results.length
    · rw [if_pos hin]
      simp only [replC, List.map_map]
      apply List.map_congr_left
      intro c _
      cases c with
      | seg d => rfl
      | tk k =>
        by_cases hk : k = m
        · subst hk
          simp [hin]
        · simp only [Function.comp_apply, if_neg hk]
          by_cases hkms : k ∈ ms
          · simp [hkms, hk]
          · simp [hkms, hk]
    · rw [if_neg hin]
      apply List.map_congr_left
      intro c _
      cases c with
      | seg d => rfl
      | tk k =>
        by_cases hk : k = m
        · subst hk
          simp [hin]
        · simp [hk]

/-- Every token number of a component list is collected by tokensOfC. -/
theorem mem_tokensOfC {m : Nat} {comps : List Comp}
    (hc : Comp.tk m ∈ comps) : m ∈ tokensOfC comps := by
  simp only [tokensOfC, List.mem_filterMap]
  exact ⟨.tk m, hc, rfl⟩

/-- Replacing by membership in the full token list is the simultaneous
substitution. -/
theorem multiRepl_tokensOf (results : List RouterStep) (comps : List Comp) :
    multiRepl results (tokensOfC comps) comps = substC results comps := by
  simp only [multiRepl, substC]
  apply List.map_congr_left
  intro c hc
  cases c with
  | seg d => rfl
  | tk m =>
    have hm : m ∈ tokensOfC comps := mem_tokensOfC hc
    simp [hm]

/-- A component list with no tokens is untouched by substitution. -/
theorem substC_no_tokens (results : List RouterStep) (comps : List Comp)
    (h : tokensOfC comps = []) : substC results comps = comps := by
  simp only [substC]
  conv_rhs => rw [← List.map_id comps]
  apply List.map_congr_left
  intro c hc
  cases c with
  | seg d => rfl
  | tk m =>
    exfalso
    have hm : m ∈ tokensOfC comps := mem_tokensOfC hc
    rw [h] at hm
    simp at hm

/-- C8 (amended): for every subtask text that is an alternation of
brace-free literal segments and canonical placeholder tokens (compWF), and
every list of recorded results whose string forms contain no opening brace,
placeholder resolution — the sequential replacement loop of
_substitute_placeholders — replaces every token occurrence with
1 ≤ N ≤ (number of recorded results) by the string form of step N's result,
identically for all occurrences, and leaves out-of-range occurrences
verbatim: it agrees with the spec-side simultaneous resolution specResolve.
Without the brace conditions the two can disagree; see the counterexample. -/
theorem C8_resolution (comps : List Comp) (results : List RouterStep)
    (hc : compWF comps = true)
    (hr : ∀ st ∈ results, braceFree st.result.data = true) :
    substitutePlaceholders (String.mk (flattenC comps)) results =
      String.mk (specResolve results (flattenC comps)) := by
  simp only [substitutePlaceholders]
  rw [findTokens_flatten comps hc]
  by_cases hnil : tokensOfC comps = []
  · rw [hnil]
    simp only [List.map_nil, List.isEmpty_nil, if_true]
    rw [specResolve_flatten comps results hc, substC_no_tokens results comps hnil]
  · have hne : ((tokensOfC comps).map natRepr).isEmpty = false := by
      cases hcl : tokensOfC comps with
      | nil => exact absurd hcl hnil
      | cons a l => rfl
    rw [if_neg (by simp [hne])]
    rw [foldl_substStep results hr (tokensOfC comps) comps hc,
      foldl_replNum_eq_multi, multiRepl_tokensOf,
      specResolve_flatten comps results hc]

/-- C8 (counterexample): the claim as stated fails in general.  With prior
results "X" and "1_output\x7d", the subtask whose text is an incomplete
token head followed by a step-2 token and a step-1 token resolves under the
code to "X and X": the step-2 replacement splices its result against the
dangling head, fabricating a new step-1 token occurrence that the later
step-1 replacement also rewrites.  Replacing every original occurrence by
the string form of its step's result (the spec-side simultaneous reading)
yields a different string, in which the original step-2 occurrence carries
the literal text of step 2's result. -/
theorem C8_counterexample :
    substitutePlaceholders
      "\x7bstep_\x7bstep_2_output\x7d and \x7bstep_1_output\x7d" rsXB
      = "X and X" ∧
    String.mk (specResolve rsXB
      ("\x7bstep_\x7bstep_2_output\x7d and \x7bstep_1_output\x7d".data)) =
      "\x7bstep_1_output\x7d and X" ∧
    ("X and X" : String) ≠ "\x7bstep_1_output\x7d and X" := by
  decide

/-- C8 witness: the amended claim applied to the spec's own examples — with
prior results "A" and "B", "Use (step 1)(step 2)" resolves to "Use A and B",
and an out-of-range step-5 token is left unmodified. -/
theorem C8_witness :
    substitutePlaceholders (String.mk (flattenC compsAB)) rsAB =
      String.mk (specResolve rsAB (flattenC compsAB)) ∧
    substitutePlaceholders (String.mk (flattenC comps5)) rsAB =
      String.mk (specResolve rsAB (flattenC comps5)) ∧
    substitutePlaceholders (String.mk (flattenC compsAB)) rsAB =
      "Use A and B" ∧
    substitutePlaceholders (String.mk (flattenC comps5)) rsAB =
      "Keep \x7bstep_5_output\x7d here" :=
  ⟨C8_resolution compsAB rsAB (by decide) (by decide),
   C8_resolution comps5 rsAB (by decide) (by decide),
   by decide, by decide⟩

end AiLaunchPad
